import Mathlib

/-!
# elwinar/fizzbuzz: a verification development

A shallow embedding of `main.go`: the request normaliser (`parseInt`,
`ParseRequest`), the generation loop and the response of the endpoint
`Service.FizzBuzz`, the aggregation routine `Service.Aggregate` and the
endpoint `Service.Statistics`.

Modelling conventions.

* Go `int` is the 64-bit integer type. The values are carried by `Int`;
  `strconv.Atoi` checks the range explicitly (range error), the increment of the
  loop counter of `Service.FizzBuzz` is the 64-bit increment (`wrapInt`), and
  `isInt` says that a value is an `int`. A counter of the aggregator is at
  most the number of requests consumed so far.
* `make([]string, 0, req.Limit)` is `makeSlice`: the runtime panics when the
  capacity is negative or its size is above `maxAlloc`, and the allocation
  succeeds only when the machine has the memory. The latter is a property of
  the machine, taken as the parameter `maxCap`: the largest capacity for which
  the machine has the memory to build the slice with its elements and to write
  the response. Nothing is assumed on `maxCap`.
* Go's `%` is the truncated remainder (`Int.tmod`) and panics on a zero
  divisor; the panic is the value `Fault.divideByZero`.
* `map[Request]int` is an association list read with the zero default.
* The channel `s.requests` is the list of the requests it delivers, in the
  order in which `Aggregate` receives them.
* For the interleavings of the aggregation routine with calls of `Statistics`,
  the goroutines are a transition system (`System.step`): one step is one
  access to a shared field or one operation on `s.lock` (`sync.RWMutex`: `Lock`
  waits until the lock is free, `RLock` waits while a writer holds it), the
  steps of the goroutines being taken in any order.
-/

namespace Fizzbuzz

/-! ## Data model -/

deriving instance DecidableEq for Except

/-- Request for a fizz-buzz (`type Request struct`). -/
structure Request where
  Int1 : Int
  Int2 : Int
  Str1 : String
  Str2 : String
  Limit : Int
  deriving DecidableEq, Repr

/-- The ways in which `Service.FizzBuzz` fails to build its result. -/
inductive Fault where
  /-- The panic `integer divide by zero` of `%`. -/
  | divideByZero
  /-- The panic `makeslice: cap out of range` of `make`. -/
  | makesliceCap
  /-- The fatal error `out of memory` of the runtime, which stops the process. -/
  | outOfMemory
  /-- The loop never leaves: its condition holds for every value of the counter. -/
  | noReturn
  deriving DecidableEq, Repr

/-! ## The generation loop of `Service.FizzBuzz` -/

/-- Go's `a % b` on `int`: truncated remainder, panics when `b` is zero. -/
def goRem (a b : Int) : Except Fault Int :=
  if b = 0 then .error .divideByZero else .ok (Int.tmod a b)

/-- The decimal string of an integer (`strconv.Itoa`). -/
def Itoa (i : Int) : String :=
  if i < 0 then String.mk ('-' :: Nat.toDigits 10 i.natAbs)
  else String.mk (Nat.toDigits 10 i.toNat)

/-- First `case` of the switch: `i%req.Int1 == 0 && i%req.Int2 == 0`, the right
operand being evaluated only when the left one holds. -/
def case1 (req : Request) (i : Int) : Except Fault Bool :=
  match goRem i req.Int1 with
  | .error f => .error f
  | .ok a =>
    if a = 0 then
      match goRem i req.Int2 with
      | .error f => .error f
      | .ok b => .ok (decide (b = 0))
    else .ok false

/-- Second `case` of the switch: `i%req.Int1 == 0`. -/
def case2 (req : Request) (i : Int) : Except Fault Bool :=
  match goRem i req.Int1 with
  | .error f => .error f
  | .ok a => .ok (decide (a = 0))

/-- Third `case` of the switch: `i%req.Int2 == 0`. -/
def case3 (req : Request) (i : Int) : Except Fault Bool :=
  match goRem i req.Int2 with
  | .error f => .error f
  | .ok b => .ok (decide (b = 0))

/-- The `switch` of the loop body: the string `v` appended for the index `i`.
The cases are tried in order, the first that holds is taken. -/
def switchValue (req : Request) (i : Int) : Except Fault String :=
  match case1 req i with
  | .error f => .error f
  | .ok true => .ok (req.Str1 ++ req.Str2)
  | .ok false =>
    match case2 req i with
    | .error f => .error f
    | .ok true => .ok req.Str1
    | .ok false =>
      match case3 req i with
      | .error f => .error f
      | .ok true => .ok req.Str2
      | .ok false => .ok (Itoa i)

/-- Go's arithmetic on `int`: the result is reduced to 64 bits in two's
complement. -/
def wrapInt (x : Int) : Int := (x + 2 ^ 63) % 2 ^ 64 - 2 ^ 63

/-- The loop `for i := ...; i <= req.Limit; i++ { ...; res = append(res, v) }`
entered with the counter `i` and the slice `res`. The statement `i++` gives
`wrapInt (i + 1)`, which is above `i` unless `i` is the largest `int`; in that
case `req.Limit` is the largest `int` too, the condition `i <= req.Limit` holds
for every value of the counter, no divisor is zero since the switch has just
returned, and the loop never leaves: the outcome is `Fault.noReturn`. -/
def fizzBuzzLoop (req : Request) (i : Int) (res : List String) :
    Except Fault (List String) :=
  if i ≤ req.Limit then
    match switchValue req i with
    | .error f => .error f
    | .ok v =>
      if i < wrapInt (i + 1) then fizzBuzzLoop req (wrapInt (i + 1)) (res ++ [v])
      else .error .noReturn
  else .ok res
termination_by (req.Limit + 1 - i).toNat
decreasing_by omega

/-- The largest size in bytes of one allocation accepted by the Go runtime on
64-bit Linux (`maxAlloc`, 48 bits of heap address). -/
def maxAlloc : Int := 2 ^ 48

/-- The size in bytes of a `string` value on a 64-bit platform: a pointer and a
length. -/
def stringSize : Int := 16

/-- The statement `make([]string, 0, cap)`. The runtime (`makeslice`) panics
when `cap` is negative or when the size of `cap` strings is above `maxAlloc`;
otherwise it allocates, which succeeds when `cap` is at most `maxCap`, the
largest capacity for which the machine has the memory to build the slice with
its elements and to write the response, and stops the process with
`out of memory` when it is not. -/
def makeSlice (maxCap : Nat) (cap : Int) : Except Fault (List String) :=
  if cap < 0 ∨ stringSize * cap > maxAlloc then .error .makesliceCap
  else if cap > (maxCap : Int) then .error .outOfMemory
  else .ok []

/-- The sequence built by `Service.FizzBuzz` for a normalised request:
`res := make([]string, 0, req.Limit)` followed by the loop from `i := 1`, on a
machine of capacity `maxCap`. -/
def generate (maxCap : Nat) (req : Request) : Except Fault (List String) :=
  match makeSlice maxCap req.Limit with
  | .error f => .error f
  | .ok res => fizzBuzzLoop req 1 res

/-- The value chosen by the switch when no divisor is zero. -/
def pureValue (req : Request) (i : Int) : String :=
  if Int.tmod i req.Int1 = 0 ∧ Int.tmod i req.Int2 = 0 then req.Str1 ++ req.Str2
  else if Int.tmod i req.Int1 = 0 then req.Str1
  else if Int.tmod i req.Int2 = 0 then req.Str2
  else Itoa i

/-! ## The request normaliser: `parseInt` and `ParseRequest` -/

/-- The two errors of `strconv` (`strconv.ErrSyntax`, `strconv.ErrRange`). -/
inductive NumError where
  | ErrSyntax
  | ErrRange
  deriving DecidableEq, Repr

/-- The digit loop of `strconv.ParseUint(s, 10, 64)`: a character that is not a
decimal digit is a syntax error, a value that leaves 64 bits is a range error. -/
def parseDigits : List Char → Nat → Except NumError Nat
  | [], n => .ok n
  | c :: cs, n =>
    if c.isDigit then
      if n * 10 + (c.toNat - 48) < 2 ^ 64 then parseDigits cs (n * 10 + (c.toNat - 48))
      else .error .ErrRange
    else .error .ErrSyntax

/-- Go's `strconv.Atoi` for the 64-bit `int`: an optional sign followed by at
least one decimal digit, the value lying in `[-2^63, 2^63 - 1]`. -/
def Atoi (s : String) : Except NumError Int :=
  match s.data with
  | [] => .error .ErrSyntax
  | c :: cs =>
    let digits := if c = '-' ∨ c = '+' then cs else c :: cs
    match digits with
    | [] => .error .ErrSyntax
    | d :: ds =>
      match parseDigits (d :: ds) 0 with
      | .error e => .error e
      | .ok un =>
        if c = '-' then
          if un ≤ 2 ^ 63 then .ok (-(un : Int)) else .error .ErrRange
        else
          if un < 2 ^ 63 then .ok (un : Int) else .error .ErrRange

/-- The part of `*http.Request` read by the service: the parsed form
(`url.Values`, a map from a key to its list of values). -/
structure HTTPRequest where
  Form : List (String × List String)
  deriving DecidableEq, Repr

/-- Go's `(*http.Request).FormValue`: the first value of `key`, the empty
string when the key has no value. -/
def FormValue (r : HTTPRequest) (key : String) : String :=
  match r.Form.lookup key with
  | some (v :: _) => v
  | _ => ""

/-- The errors returned by `ParseRequest`. -/
inductive ParseError where
  /-- The error `fmt.Errorf("parsing %q parameter: %w", key, err)`. -/
  | parsing (key : String) (err : NumError)
  /-- The error `invalid "limit" parameter: must be a positive integer`. -/
  | invalidLimit
  deriving DecidableEq, Repr

/-- The function `parseInt` from a request, with default fallback if the value is empty (or
not found), returning an eventual parsing error. -/
def parseInt (r : HTTPRequest) (key : String) (dflt : Int) : Except ParseError Int :=
  let raw := FormValue r key
  if raw.length = 0 then .ok dflt
  else
    match Atoi raw with
    | .error err => .error (.parsing key err)
    | .ok res => .ok res

/-- The function `ParseRequest` from the raw HTTP request, validating the
parameters. -/
def ParseRequest (r : HTTPRequest) : Except ParseError Request :=
  match parseInt r "int1" 3 with
  | .error err => .error err
  | .ok int1 =>
    match parseInt r "int2" 5 with
    | .error err => .error err
    | .ok int2 =>
      let str1 := FormValue r "str1"
      let str1 := if str1.length = 0 then "fizz" else str1
      let str2 := FormValue r "str2"
      let str2 := if str2.length = 0 then "buzz" else str2
      match parseInt r "limit" 100 with
      | .error err => .error err
      | .ok limit =>
        if limit < 0 then .error .invalidLimit
        else .ok { Int1 := int1, Int2 := int2, Str1 := str1, Str2 := str2, Limit := limit }

/-! ## Responses and the two endpoints -/

/-- The values handed to `write`: the anonymous error struct,
`FizzBuzzResponse` and `StatisticsResponse`. -/
inductive Payload where
  | error (err : ParseError)
  | result (res : List String)
  | statistics (request : Request) (total : Int)
  deriving DecidableEq, Repr

/-- What `write` leaves on the `http.ResponseWriter`. -/
structure Response where
  status : Nat
  payload : Payload
  deriving DecidableEq, Repr

/-- The function `write`: the status and the JSON payload. `json.Marshal` has no error on the
three payload types of the service, so the given status is the one written. -/
def write (status : Nat) (payload : Payload) : Response :=
  { status := status, payload := payload }

/-- The service state owned by the aggregation routine: `counters`, `max` and
`maxCounter` of `type Service struct`. -/
structure Service where
  counters : List (Request × Int)
  max : Request
  maxCounter : Int
  deriving DecidableEq, Repr

/-- The state built by `NewService`: an empty map, the zero request and the zero counter. -/
def NewService : Service :=
  { counters := [],
    max := { Int1 := 0, Int2 := 0, Str1 := "", Str2 := "", Limit := 0 },
    maxCounter := 0 }

/-- Reading `m[k]` in a `map[Request]int`: zero for an absent key. -/
def mapGet (m : List (Request × Int)) (k : Request) : Int :=
  match m.lookup k with
  | some v => v
  | none => 0

/-- Writing `m[k] = v` in a `map[Request]int`. -/
def mapSet : List (Request × Int) → Request → Int → List (Request × Int)
  | [], k, v => [(k, v)]
  | (k0, v0) :: m, k, v => if k0 = k then (k0, v) :: m else (k0, v0) :: mapSet m k v

/-- The endpoint `Service.FizzBuzz` on a machine of capacity `maxCap`: the
response written, and the request sent on `s.requests` after it (none on the
error path). A fault of `make` or of the loop leaves neither. -/
def Service.FizzBuzz (maxCap : Nat) (r : HTTPRequest) :
    Except Fault (Response × Option Request) :=
  match ParseRequest r with
  | .error err => .ok (write 400 (.error err), none)
  | .ok req =>
    match generate maxCap req with
    | .error f => .error f
    | .ok res => .ok (write 200 (.result res), some req)

/-- One iteration of the loop of `Service.Aggregate`, for the request `req`
received from the channel. -/
def Service.aggregateStep (s : Service) (req : Request) : Service :=
  let counters := mapSet s.counters req (mapGet s.counters req + 1)
  if mapGet counters req > s.maxCounter then
    { counters := counters, max := req, maxCounter := mapGet counters req }
  else
    { counters := counters, max := s.max, maxCounter := s.maxCounter }

/-- The loop of `Service.Aggregate` run over the requests delivered by the
channel. -/
def Service.Aggregate (s : Service) (reqs : List Request) : Service :=
  reqs.foldl Service.aggregateStep s

/-- The endpoint `Service.Statistics`. -/
def Service.Statistics (s : Service) : Response :=
  write 200 (.statistics s.max s.maxCounter)

/-- One call of the endpoint `Service.FizzBuzz` followed by the reception of
what it sent by the aggregation routine. A call that sends nothing leaves the
state as it is (after `Fault.outOfMemory` it is the last state of the process). -/
def Service.serve (maxCap : Nat) (s : Service) (r : HTTPRequest) : Service :=
  match Service.FizzBuzz maxCap r with
  | .ok (_, some req) => s.aggregateStep req
  | _ => s

/-! ## `Request.URLEncode` -/

/-- The values of Go's 64-bit `int`, the type of the integer fields of
`Request`. -/
def isInt (n : Int) : Prop := -(2 ^ 63) ≤ n ∧ n < 2 ^ 63

instance (n : Int) : Decidable (isInt n) := by
  unfold isInt
  infer_instance

/-- The method `Request.URLEncode`: its `url.Values` literal. Its
`Encode()` and the parsing of the query string by `net/http` are inverse of
each other on `url.Values`; the string in between is not modelled, so the
result is the form read by `FormValue` when the query is sent to the service. -/
def Request.URLEncode (r : Request) : List (String × List String) :=
  [("int1", [Itoa r.Int1]), ("int2", [Itoa r.Int2]), ("str1", [r.Str1]),
    ("str2", [r.Str2]), ("limit", [Itoa r.Limit])]

/-! ## The aggregation routine and `Statistics` as concurrent goroutines

The goroutine of `Service.Aggregate` and the goroutines serving `Statistics`
take their steps in any order. One step is one access to the shared fields of
`Service` or one operation on `s.lock`; `counters`, `max` and `maxCounter` are
written by the aggregation routine only, and `max` and `maxCounter` are read by
`Statistics` under the read lock. -/

/-- Where the goroutine of `Service.Aggregate` stands: the statement it runs
next, with the request `req` of the current iteration. -/
inductive AggPc where
  /-- At `for req := range s.requests`, waiting for a request. -/
  | receive
  /-- At `s.counters[req] += 1`. -/
  | increment (req : Request)
  /-- At `if s.counters[req] > s.maxCounter`. -/
  | compare (req : Request)
  /-- At `s.lock.Lock()`. -/
  | lock (req : Request)
  /-- At `s.max = req`. -/
  | setMax (req : Request)
  /-- At `s.maxCounter = s.counters[req]`. -/
  | setMaxCounter (req : Request)
  /-- At `s.lock.Unlock()`. -/
  | unlock
  deriving DecidableEq, Repr

/-- Where a goroutine serving `Service.Statistics` stands. -/
inductive StatPc where
  /-- At `s.lock.RLock()`. -/
  | rlock
  /-- Reading `s.max` for the field `Request` of the response. -/
  | readMax
  /-- Reading `s.maxCounter` for the field `Total`, `s.max` read as `m`. -/
  | readMaxCounter (m : Request)
  /-- The response `(m, c)` handed to `write`; at the deferred `s.lock.RUnlock()`. -/
  | runlock (m : Request) (c : Int)
  /-- Returned, having answered `(m, c)`. -/
  | done (m : Request) (c : Int)
  deriving DecidableEq, Repr

/-- The service with its goroutines: the shared fields, the state of `s.lock`
(held by a writer, number of readers holding it), the aggregation routine, the
requests it has received so far and the calls of `Statistics` started so far. -/
structure System where
  svc : Service
  writer : Bool
  readers : Nat
  agg : AggPc
  consumed : List Request
  stats : List StatPc
  deriving DecidableEq, Repr

/-- The system after `NewService`: nothing received, no call of `Statistics`. -/
def System.init : System :=
  { svc := NewService, writer := false, readers := 0, agg := .receive, consumed := [],
    stats := [] }

/-- What can happen next in the system. -/
inductive Action where
  /-- The send `s.requests <- req` of a call of `FizzBuzz` meets the receive of
  the aggregation routine. -/
  | send (req : Request)
  /-- The aggregation routine runs its next statement. -/
  | agg
  /-- A new call of `Statistics` starts. -/
  | call
  /-- The call number `i` of `Statistics` runs its next statement. -/
  | stat (i : Nat)
  deriving DecidableEq, Repr

/-- The next statement of the aggregation routine; `none` when it is blocked
(waiting on the channel, or in `Lock()` while the lock is held). -/
def System.stepAgg (σ : System) : Option System :=
  match σ.agg with
  | .receive => none
  | .increment req =>
    some { σ with
      svc := { σ.svc with
        counters := mapSet σ.svc.counters req (mapGet σ.svc.counters req + 1) },
      agg := .compare req }
  | .compare req =>
    if mapGet σ.svc.counters req > σ.svc.maxCounter then some { σ with agg := .lock req }
    else some { σ with agg := .receive }
  | .lock req =>
    if σ.writer = false ∧ σ.readers = 0 then some { σ with writer := true, agg := .setMax req }
    else none
  | .setMax req =>
    some { σ with svc := { σ.svc with max := req }, agg := .setMaxCounter req }
  | .setMaxCounter req =>
    some { σ with
      svc := { σ.svc with maxCounter := mapGet σ.svc.counters req }, agg := .unlock }
  | .unlock => some { σ with writer := false, agg := .receive }

/-- The next statement of the call number `i` of `Statistics`; `none` when
there is no such call, when it has returned, or when it is blocked in
`RLock()` by a writer. -/
def System.stepStat (σ : System) (i : Nat) : Option System :=
  match σ.stats[i]? with
  | none => none
  | some .rlock =>
    if σ.writer = false then
      some { σ with readers := σ.readers + 1, stats := σ.stats.set i .readMax }
    else none
  | some .readMax => some { σ with stats := σ.stats.set i (.readMaxCounter σ.svc.max) }
  | some (.readMaxCounter m) =>
    some { σ with stats := σ.stats.set i (.runlock m σ.svc.maxCounter) }
  | some (.runlock m c) =>
    some { σ with readers := σ.readers - 1, stats := σ.stats.set i (.done m c) }
  | some (.done _ _) => none

/-- One step of the system; `none` when the action is not possible. -/
def System.step (σ : System) : Action → Option System
  | .send req =>
    match σ.agg with
    | .receive => some { σ with agg := .increment req, consumed := σ.consumed ++ [req] }
    | _ => none
  | .agg => σ.stepAgg
  | .call => some { σ with stats := σ.stats ++ [.rlock] }
  | .stat i => σ.stepStat i

/-- A schedule: the actions taken one after the other. -/
def System.run (σ : System) : List Action → Option System
  | [] => some σ
  | a :: as =>
    match σ.step a with
    | none => none
    | some σ1 => σ1.run as

/-- The response carried by a call of `Statistics`, once it is built. -/
def StatPc.response : StatPc → Option (Request × Int)
  | .runlock m c => some (m, c)
  | .done m c => some (m, c)
  | _ => none

/-- A call of `Statistics` that holds the read lock. -/
def StatPc.holding : StatPc → Bool
  | .readMax => true
  | .readMaxCounter _ => true
  | .runlock _ _ => true
  | _ => false

/-- The statements of the aggregation routine that run with the lock held. -/
def AggPc.critical : AggPc → Bool
  | .setMax _ => true
  | .setMaxCounter _ => true
  | .unlock => true
  | _ => false

/-- The shared fields in the middle of an iteration of `Service.Aggregate`, from
the state `p` at its start: the count of `req` is incremented, `max` and
`maxCounter` are as given. -/
def midStep (p : Service) (req : Request) (m : Request) (c : Int) : Service :=
  { counters := mapSet p.counters req (mapGet p.counters req + 1), max := m, maxCounter := c }

/-- The aggregation routine against `Service.Aggregate`: the shared fields at
each statement, from the state reached on the requests received before the
current one. -/
def System.aggInv (σ : System) : Prop :=
  match σ.agg with
  | .receive => σ.svc = NewService.Aggregate σ.consumed
  | .increment req =>
    ∃ pre, σ.consumed = pre ++ [req] ∧ σ.svc = NewService.Aggregate pre
  | .compare req =>
    ∃ pre, σ.consumed = pre ++ [req] ∧
      σ.svc = midStep (NewService.Aggregate pre) req (NewService.Aggregate pre).max
        (NewService.Aggregate pre).maxCounter
  | .lock req =>
    ∃ pre, σ.consumed = pre ++ [req] ∧
      σ.svc = midStep (NewService.Aggregate pre) req (NewService.Aggregate pre).max
        (NewService.Aggregate pre).maxCounter ∧
      mapGet σ.svc.counters req > (NewService.Aggregate pre).maxCounter
  | .setMax req =>
    ∃ pre, σ.consumed = pre ++ [req] ∧
      σ.svc = midStep (NewService.Aggregate pre) req (NewService.Aggregate pre).max
        (NewService.Aggregate pre).maxCounter ∧
      mapGet σ.svc.counters req > (NewService.Aggregate pre).maxCounter
  | .setMaxCounter req =>
    ∃ pre, σ.consumed = pre ++ [req] ∧
      σ.svc = midStep (NewService.Aggregate pre) req req (NewService.Aggregate pre).maxCounter ∧
      mapGet σ.svc.counters req > (NewService.Aggregate pre).maxCounter
  | .unlock => σ.svc = NewService.Aggregate σ.consumed

/-- The tracker of the service is the tracker of `Service.Aggregate` after some
of the first requests received. -/
def trackerOfPrefix (consumed : List Request) (m : Request) (c : Int) : Prop :=
  ∃ n, n ≤ consumed.length ∧
    m = (NewService.Aggregate (consumed.take n)).max ∧
    c = (NewService.Aggregate (consumed.take n)).maxCounter

/-- The invariant of the system. -/
structure System.Inv (σ : System) : Prop where
  agg : σ.aggInv
  lockW : σ.writer = σ.agg.critical
  excl : σ.writer = true → σ.readers = 0
  cnt : σ.readers = σ.stats.countP StatPc.holding
  readM : ∀ m, StatPc.readMaxCounter m ∈ σ.stats → m = σ.svc.max
  resp : ∀ t ∈ σ.stats, ∀ m c, t.response = some (m, c) → trackerOfPrefix σ.consumed m c

/-! ## Lemmas on the generation loop -/

theorem goRem_of_ne_zero (a b : Int) (h : b ≠ 0) : goRem a b = .ok (Int.tmod a b) := by
  simp [goRem, h]

theorem switchValue_of_ne_zero (req : Request) (i : Int)
    (h1 : req.Int1 ≠ 0) (h2 : req.Int2 ≠ 0) :
    switchValue req i = .ok (pureValue req i) := by
  unfold switchValue case1 case2 case3 pureValue
  rw [goRem_of_ne_zero _ _ h1, goRem_of_ne_zero _ _ h2]
  by_cases ha : Int.tmod i req.Int1 = 0 <;> by_cases hb : Int.tmod i req.Int2 = 0 <;>
    simp [ha, hb]

theorem wrapInt_succ (i : Int) (h1 : -(2 ^ 63) ≤ i + 1) (h2 : i + 1 < 2 ^ 63) :
    wrapInt (i + 1) = i + 1 := by
  unfold wrapInt
  omega

theorem makeSlice_ok (maxCap : Nat) (cap : Int) (h0 : 0 ≤ cap) (h1 : cap ≤ 2 ^ 44)
    (h2 : cap ≤ (maxCap : Int)) : makeSlice maxCap cap = .ok [] := by
  unfold makeSlice maxAlloc stringSize
  rw [if_neg (by omega), if_neg (by omega)]

theorem makeSlice_large (maxCap : Nat) (cap : Int) (h : 2 ^ 44 < cap) :
    makeSlice maxCap cap = .error .makesliceCap := by
  unfold makeSlice maxAlloc stringSize
  rw [if_pos (by omega)]

theorem makeSlice_negative (maxCap : Nat) (cap : Int) (h : cap < 0) :
    makeSlice maxCap cap = .error .makesliceCap := by
  unfold makeSlice
  rw [if_pos (Or.inl h)]

theorem makeSlice_noMemory (maxCap : Nat) (cap : Int) (h0 : 0 ≤ cap) (h1 : cap ≤ 2 ^ 44)
    (h2 : (maxCap : Int) < cap) : makeSlice maxCap cap = .error .outOfMemory := by
  unfold makeSlice maxAlloc stringSize
  rw [if_neg (by omega), if_pos (by omega)]

theorem fizzBuzzLoop_of_ne_zero (req : Request) (h1 : req.Int1 ≠ 0) (h2 : req.Int2 ≠ 0)
    (hlim : req.Limit < 2 ^ 63 - 1) :
    ∀ (n : Nat) (i : Int) (res : List String), (req.Limit + 1 - i).toNat = n →
      -(2 ^ 63) ≤ i + 1 →
      fizzBuzzLoop req i res
        = .ok (res ++ (List.range n).map (fun (k : Nat) => pureValue req (i + (k : Int)))) := by
  intro n
  induction n with
  | zero =>
    intro i res hn _
    rw [fizzBuzzLoop]
    have : ¬ i ≤ req.Limit := by omega
    simp [this]
  | succ n ih =>
    intro i res hn hi
    rw [fizzBuzzLoop]
    have hle : i ≤ req.Limit := by omega
    have hw : wrapInt (i + 1) = i + 1 := wrapInt_succ i hi (by omega)
    have hlt : i < i + 1 := by omega
    simp only [hle, if_true, switchValue_of_ne_zero req i h1 h2, hw, hlt]
    rw [ih (i + 1) _ (by omega) (by omega)]
    congr 1
    rw [List.range_succ_eq_map, List.map_cons, List.map_map, List.append_assoc]
    simp only [List.singleton_append, Nat.cast_zero, add_zero]
    congr 2
    apply List.map_congr_left
    intro k _
    simp only [Function.comp, Nat.succ_eq_add_one, Nat.cast_add, Nat.cast_one]
    congr 1
    ring

theorem generate_of_ne_zero (maxCap : Nat) (req : Request) (h1 : req.Int1 ≠ 0)
    (h2 : req.Int2 ≠ 0) (h0 : 0 ≤ req.Limit) (hrt : req.Limit ≤ 2 ^ 44)
    (hmem : req.Limit ≤ (maxCap : Int)) :
    generate maxCap req
      = .ok ((List.range req.Limit.toNat).map (fun (k : Nat) => pureValue req (1 + (k : Int)))) := by
  unfold generate
  rw [makeSlice_ok maxCap req.Limit h0 hrt hmem]
  simp only []
  rw [fizzBuzzLoop_of_ne_zero req h1 h2 (by omega) req.Limit.toNat 1 [] (by omega) (by omega)]
  simp

theorem generate_of_large (maxCap : Nat) (req : Request) (h : 2 ^ 44 < req.Limit) :
    generate maxCap req = .error .makesliceCap := by
  unfold generate
  rw [makeSlice_large maxCap req.Limit h]

theorem generate_of_noMemory (maxCap : Nat) (req : Request) (h0 : 0 ≤ req.Limit)
    (h1 : req.Limit ≤ 2 ^ 44) (h2 : (maxCap : Int) < req.Limit) :
    generate maxCap req = .error .outOfMemory := by
  unfold generate
  rw [makeSlice_noMemory maxCap req.Limit h0 h1 h2]

theorem pureValue_spec (req : Request) (i : Int) :
    (req.Int1 ∣ i ∧ req.Int2 ∣ i → pureValue req i = req.Str1 ++ req.Str2) ∧
    (req.Int1 ∣ i ∧ ¬ req.Int2 ∣ i → pureValue req i = req.Str1) ∧
    (¬ req.Int1 ∣ i ∧ req.Int2 ∣ i → pureValue req i = req.Str2) ∧
    (¬ req.Int1 ∣ i ∧ ¬ req.Int2 ∣ i → pureValue req i = Itoa i) := by
  unfold pureValue
  simp only [← Int.dvd_iff_tmod_eq_zero]
  refine ⟨?_, ?_, ?_, ?_⟩ <;> intro h <;> simp [h.1, h.2]

/-! ## Lemmas on the frequency table -/

theorem mapGet_mapSet_self (m : List (Request × Int)) (k : Request) (v : Int) :
    mapGet (mapSet m k v) k = v := by
  induction m with
  | nil => simp [mapSet, mapGet, List.lookup]
  | cons p m ih =>
    obtain ⟨k0, v0⟩ := p
    by_cases h : k0 = k
    · subst h
      simp [mapSet, mapGet, List.lookup]
    · have hk : (k == k0) = false := by simpa using fun e => h e.symm
      simp only [mapSet, h, if_false]
      simp only [mapGet, List.lookup, hk] at ih ⊢
      exact ih

theorem mapGet_mapSet_ne (m : List (Request × Int)) (k k1 : Request) (v : Int)
    (hne : k1 ≠ k) : mapGet (mapSet m k v) k1 = mapGet m k1 := by
  induction m with
  | nil =>
    have hk : (k1 == k) = false := by simpa using hne
    simp [mapSet, mapGet, List.lookup, hk]
  | cons p m ih =>
    obtain ⟨k0, v0⟩ := p
    by_cases h : k0 = k
    · subst h
      have hk : (k1 == k0) = false := by simpa using hne
      simp [mapSet, mapGet, List.lookup, hk]
    · simp only [mapSet, h, if_false]
      by_cases h1 : k1 = k0
      · subst h1
        simp [mapGet, List.lookup]
      · have hk : (k1 == k0) = false := by simpa using h1
        simp only [mapGet, List.lookup, hk] at ih ⊢
        exact ih

theorem sum_mapSet (m : List (Request × Int)) (k : Request) (v : Int) :
    ((mapSet m k v).map Prod.snd).sum = (m.map Prod.snd).sum - mapGet m k + v := by
  induction m with
  | nil => simp [mapSet, mapGet, List.lookup]
  | cons p m ih =>
    obtain ⟨k0, v0⟩ := p
    by_cases h : k0 = k
    · subst h
      simp [mapSet, mapGet, List.lookup]
      ring
    · have hk : (k == k0) = false := by simpa using fun e => h e.symm
      simp only [mapSet, h, if_false, List.map_cons, List.sum_cons, ih]
      simp only [mapGet, List.lookup, hk]
      ring

theorem keys_mapSet (m : List (Request × Int)) (k : Request) (v : Int) :
    (mapSet m k v).map Prod.fst
      = if k ∈ m.map Prod.fst then m.map Prod.fst else m.map Prod.fst ++ [k] := by
  induction m with
  | nil => simp [mapSet]
  | cons p m ih =>
    obtain ⟨k0, v0⟩ := p
    by_cases h : k0 = k
    · subst h
      simp [mapSet]
    · have h1 : ¬ k = k0 := fun e => h e.symm
      simp only [mapSet, h, if_false, List.map_cons, ih, List.mem_cons, h1, false_or]
      split <;> simp

theorem nodup_keys_mapSet (m : List (Request × Int)) (k : Request) (v : Int)
    (h : (m.map Prod.fst).Nodup) : ((mapSet m k v).map Prod.fst).Nodup := by
  rw [keys_mapSet]
  split
  · exact h
  · rename_i hk
    rw [List.nodup_append]
    refine ⟨h, List.nodup_singleton k, ?_⟩
    intro a ha hb
    simp only [List.mem_singleton] at hb
    exact hk (hb ▸ ha)

/-! ## Lemmas on the aggregation routine -/

theorem aggregateStep_counters (s : Service) (r : Request) :
    (s.aggregateStep r).counters = mapSet s.counters r (mapGet s.counters r + 1) := by
  unfold Service.aggregateStep
  simp only []
  split <;> rfl

theorem aggregateStep_get_self (s : Service) (r : Request) :
    mapGet (s.aggregateStep r).counters r = mapGet s.counters r + 1 := by
  rw [aggregateStep_counters, mapGet_mapSet_self]

theorem aggregateStep_get_ne (s : Service) (r r1 : Request) (hne : r1 ≠ r) :
    mapGet (s.aggregateStep r).counters r1 = mapGet s.counters r1 := by
  rw [aggregateStep_counters, mapGet_mapSet_ne _ _ _ _ hne]

theorem aggregateStep_max_of_gt (s : Service) (r : Request)
    (h : mapGet s.counters r + 1 > s.maxCounter) :
    (s.aggregateStep r).max = r ∧ (s.aggregateStep r).maxCounter = mapGet s.counters r + 1 := by
  unfold Service.aggregateStep
  simp only [mapGet_mapSet_self, h, if_true, and_self]

theorem aggregateStep_max_of_not_gt (s : Service) (r : Request)
    (h : ¬ mapGet s.counters r + 1 > s.maxCounter) :
    (s.aggregateStep r).max = s.max ∧ (s.aggregateStep r).maxCounter = s.maxCounter := by
  unfold Service.aggregateStep
  simp only [mapGet_mapSet_self, h, if_false, and_self]

theorem Aggregate_snoc (s : Service) (l : List Request) (r : Request) :
    s.Aggregate (l ++ [r]) = (s.Aggregate l).aggregateStep r := by
  simp [Service.Aggregate, List.foldl_append]

theorem Aggregate_get (l : List Request) (r : Request) :
    mapGet (NewService.Aggregate l).counters r = (l.count r : Int) := by
  induction l using List.reverseRecOn with
  | nil => simp [Service.Aggregate, NewService, mapGet, List.lookup]
  | append_singleton l x ih =>
    rw [Aggregate_snoc, List.count_append]
    by_cases h : r = x
    · subst h
      rw [aggregateStep_get_self, ih]
      simp
    · rw [aggregateStep_get_ne _ _ _ h, ih]
      have : List.count r [x] = 0 := by
        simp [List.count_singleton]
        exact fun e => h e.symm
      simp [this]

theorem Aggregate_sum (l : List Request) :
    ((NewService.Aggregate l).counters.map Prod.snd).sum = (l.length : Int) := by
  induction l using List.reverseRecOn with
  | nil => simp [Service.Aggregate, NewService]
  | append_singleton l x ih =>
    rw [Aggregate_snoc, aggregateStep_counters, sum_mapSet, ih]
    simp
    ring

theorem Aggregate_nodup (l : List Request) :
    ((NewService.Aggregate l).counters.map Prod.fst).Nodup := by
  induction l using List.reverseRecOn with
  | nil => simp [Service.Aggregate, NewService]
  | append_singleton l x ih =>
    rw [Aggregate_snoc, aggregateStep_counters]
    exact nodup_keys_mapSet _ _ _ ih

/-- The tracked pair is an argmax of the table, in every reachable state. -/
theorem Aggregate_argmax (l : List Request) :
    mapGet (NewService.Aggregate l).counters (NewService.Aggregate l).max
        = (NewService.Aggregate l).maxCounter ∧
      ∀ r, mapGet (NewService.Aggregate l).counters r ≤ (NewService.Aggregate l).maxCounter := by
  induction l using List.reverseRecOn with
  | nil =>
    refine ⟨by simp [Service.Aggregate, NewService, mapGet, List.lookup], fun r => ?_⟩
    simp [Service.Aggregate, NewService, mapGet, List.lookup]
  | append_singleton l x ih =>
    rw [Aggregate_snoc]
    obtain ⟨heq, hle⟩ := ih
    by_cases h : mapGet (NewService.Aggregate l).counters x + 1 > (NewService.Aggregate l).maxCounter
    · obtain ⟨hm, hc⟩ := aggregateStep_max_of_gt _ _ h
      rw [hm, hc]
      refine ⟨aggregateStep_get_self _ _, fun r => ?_⟩
      by_cases hr : r = x
      · subst hr
        rw [aggregateStep_get_self]
      · rw [aggregateStep_get_ne _ _ _ hr]
        have := hle r
        omega
    · obtain ⟨hm, hc⟩ := aggregateStep_max_of_not_gt _ _ h
      rw [hm, hc]
      have hmx : (NewService.Aggregate l).max ≠ x := by
        intro e
        rw [e] at heq
        omega
      refine ⟨by rw [aggregateStep_get_ne _ _ _ hmx, heq], fun r => ?_⟩
      by_cases hr : r = x
      · subst hr
        rw [aggregateStep_get_self]
        omega
      · rw [aggregateStep_get_ne _ _ _ hr]
        exact hle r

/-- The holder of the title is the earliest record that brought a count up to
the tracked maximum. -/
theorem Aggregate_earliest (l : List Request) (hne : l ≠ []) :
    ∃ k r, l[k]? = some r ∧ (NewService.Aggregate l).max = r ∧
      ((l.take (k + 1)).count r : Int) = (NewService.Aggregate l).maxCounter ∧
      ∀ j r1, j < k → l[j]? = some r1 →
        ((l.take (j + 1)).count r1 : Int) < (NewService.Aggregate l).maxCounter := by
  induction l using List.reverseRecOn with
  | nil => exact absurd rfl hne
  | append_singleton l x ih =>
    rw [Aggregate_snoc]
    have harg := Aggregate_argmax l
    have hget := Aggregate_get l
    by_cases h : mapGet (NewService.Aggregate l).counters x + 1 > (NewService.Aggregate l).maxCounter
    · obtain ⟨hm, hc⟩ := aggregateStep_max_of_gt _ _ h
      rw [hm, hc]
      refine ⟨l.length, x, by simp, rfl, ?_, ?_⟩
      · rw [List.take_of_length_le (by simp), List.count_append, hget]
        simp
      · intro j r1 hj hr1
        rw [List.getElem?_append_left hj] at hr1
        rw [List.take_append_of_le_length (by omega)]
        have h1 : (l.take (j + 1)).count r1 ≤ l.count r1 :=
          (List.take_sublist _ _).count_le _
        have h2 := harg.2 r1
        rw [hget] at h2
        omega
    · obtain ⟨hm, hc⟩ := aggregateStep_max_of_not_gt _ _ h
      rw [hm, hc]
      have hl : l ≠ [] := by
        intro e
        subst e
        simp [Service.Aggregate, NewService, mapGet, List.lookup] at h
      obtain ⟨k, r, hk, hmax, hcnt, hearlier⟩ := ih hl
      have hklt : k < l.length := by
        by_contra hge
        rw [List.getElem?_eq_none (by omega)] at hk
        cases hk
      refine ⟨k, r, ?_, hmax, ?_, ?_⟩
      · rw [List.getElem?_append_left hklt]
        exact hk
      · rw [List.take_append_of_le_length (by omega)]
        exact hcnt
      · intro j r1 hj hr1
        rw [List.getElem?_append_left (by omega)] at hr1
        rw [List.take_append_of_le_length (by omega)]
        exact hearlier j r1 hj hr1

/-- The tracked count never decreases, and the tracked request changes only
when the tracked count grows. -/
theorem Aggregate_mono (l l2 : List Request) :
    (NewService.Aggregate l).maxCounter ≤ (NewService.Aggregate (l ++ l2)).maxCounter ∧
      ((NewService.Aggregate (l ++ l2)).maxCounter = (NewService.Aggregate l).maxCounter →
        (NewService.Aggregate (l ++ l2)).max = (NewService.Aggregate l).max) := by
  induction l2 using List.reverseRecOn with
  | nil => simp
  | append_singleton l2 x ih =>
    rw [← List.append_assoc, Aggregate_snoc]
    obtain ⟨hle, hsame⟩ := ih
    by_cases h : mapGet (NewService.Aggregate (l ++ l2)).counters x + 1
        > (NewService.Aggregate (l ++ l2)).maxCounter
    · obtain ⟨_, hc⟩ := aggregateStep_max_of_gt _ _ h
      rw [hc]
      exact ⟨by omega, fun e => by omega⟩
    · obtain ⟨hm, hc⟩ := aggregateStep_max_of_not_gt _ _ h
      rw [hm, hc]
      exact ⟨hle, hsame⟩

theorem count_two_le_one (a b r : Request) (hab : a ≠ b) : List.count r [a, b] ≤ 1 := by
  by_cases ha : a = r
  · subst ha
    simp [List.count_cons, hab.symm]
  · simp [List.count_cons, ha]
    split <;> omega

/-! ## The claims on the sequence generator -/

/-- The largest `int` is accepted as a limit by `ParseRequest`, and for this
limit `make` panics before the loop on every machine: no sequence is
generated, so no element 1 exists. -/
theorem generate_element_counterexample :
    ParseRequest ⟨[("limit", ["9223372036854775807"])]⟩
        = .ok ⟨3, 5, "fizz", "buzz", 9223372036854775807⟩ ∧
      ∀ maxCap : Nat,
        generate maxCap ⟨3, 5, "fizz", "buzz", 9223372036854775807⟩ = .error .makesliceCap :=
  ⟨by decide, fun maxCap => generate_of_large maxCap _ (by decide)⟩

/-- C1, amended: for divisors `d1 ≥ 1`, `d2 ≥ 1`, any labels, a limit with
`0 ≤ limit ≤ 2^44` for which the machine has the memory (`limit ≤ maxCap`) and
`1 ≤ i ≤ limit`, `Service.FizzBuzz` builds a sequence whose element `i`
(1-indexed) is `label1` followed by `label2` when both divisors divide `i`,
`label1` when only `d1` does, `label2` when only `d2` does, and the decimal
string of `i` otherwise. -/
theorem generate_element (maxCap : Nat) (d1 d2 : Int) (label1 label2 : String)
    (limit i : Int) (hd1 : 1 ≤ d1) (hd2 : 1 ≤ d2) (hlimit : 0 ≤ limit)
    (hrt : limit ≤ 2 ^ 44) (hmem : limit ≤ (maxCap : Int)) (hi1 : 1 ≤ i) (hi2 : i ≤ limit) :
    ∃ res v, generate maxCap ⟨d1, d2, label1, label2, limit⟩ = .ok res ∧
      res[(i - 1).toNat]? = some v ∧
      (d1 ∣ i ∧ d2 ∣ i → v = label1 ++ label2) ∧
      (d1 ∣ i ∧ ¬ d2 ∣ i → v = label1) ∧
      (¬ d1 ∣ i ∧ d2 ∣ i → v = label2) ∧
      (¬ d1 ∣ i ∧ ¬ d2 ∣ i → v = Itoa i) := by
  have h1 : (⟨d1, d2, label1, label2, limit⟩ : Request).Int1 ≠ 0 := by simp; omega
  have h2 : (⟨d1, d2, label1, label2, limit⟩ : Request).Int2 ≠ 0 := by simp; omega
  refine ⟨_, pureValue ⟨d1, d2, label1, label2, limit⟩ i,
    generate_of_ne_zero maxCap _ h1 h2 hlimit hrt hmem, ?_,
    pureValue_spec ⟨d1, d2, label1, label2, limit⟩ i⟩
  have hlt : (i - 1).toNat < limit.toNat := by omega
  have hi : 1 + (((i - 1).toNat : Nat) : Int) = i := by omega
  rw [List.getElem?_map, List.getElem?_range hlt]
  simp only [Option.map_some', hi]

/-- The element 15 of the default request, on a machine with the memory for
100 strings. -/
theorem generate_element_witness :
    ∃ res v, generate 100 ⟨3, 5, "fizz", "buzz", 100⟩ = .ok res ∧
      res[((15 : Int) - 1).toNat]? = some v ∧
      ((3 : Int) ∣ 15 ∧ (5 : Int) ∣ 15 → v = "fizz" ++ "buzz") ∧
      ((3 : Int) ∣ 15 ∧ ¬ (5 : Int) ∣ 15 → v = "fizz") ∧
      (¬ (3 : Int) ∣ 15 ∧ (5 : Int) ∣ 15 → v = "buzz") ∧
      (¬ (3 : Int) ∣ 15 ∧ ¬ (5 : Int) ∣ 15 → v = Itoa 15) :=
  generate_element 100 3 5 "fizz" "buzz" 100 15 (by decide) (by decide) (by decide)
    (by decide) (by decide) (by decide) (by decide)

/-- With the largest `int` as limit, accepted by `ParseRequest`, no machine
returns a sequence: `make` panics, so there is no sequence of `limit` elements.
The same holds from the limit `2^44 + 1` on. -/
theorem generate_length_counterexample :
    ParseRequest ⟨[("limit", ["9223372036854775807"])]⟩
        = .ok ⟨3, 5, "fizz", "buzz", 9223372036854775807⟩ ∧
      (∀ (maxCap : Nat) (res : List String),
        generate maxCap ⟨3, 5, "fizz", "buzz", 9223372036854775807⟩ ≠ .ok res) ∧
      (∀ (maxCap : Nat) (res : List String),
        generate maxCap ⟨3, 5, "fizz", "buzz", 17592186044417⟩ ≠ .ok res) := by
  refine ⟨by decide, fun maxCap res h => ?_, fun maxCap res h => ?_⟩
  · rw [generate_of_large maxCap _ (by decide)] at h
    cases h
  · rw [generate_of_large maxCap _ (by decide)] at h
    cases h

/-- C2, amended: for divisors `d1 ≥ 1`, `d2 ≥ 1`, any labels and `limit ≥ 0`:
when `limit ≤ 2^44` and the machine has the memory (`limit ≤ maxCap`),
`Service.FizzBuzz` builds a sequence of exactly `limit` elements, the empty
sequence for `limit = 0`; when `limit > 2^44`, `make` panics; otherwise the
process runs out of memory. In the last two cases there is no sequence. -/
theorem generate_length (maxCap : Nat) (d1 d2 : Int) (label1 label2 : String) (limit : Int)
    (hd1 : 1 ≤ d1) (hd2 : 1 ≤ d2) (hlimit : 0 ≤ limit) :
    (limit ≤ 2 ^ 44 → limit ≤ (maxCap : Int) →
      ∃ res, generate maxCap ⟨d1, d2, label1, label2, limit⟩ = .ok res ∧
        (res.length : Int) = limit ∧ (limit = 0 → res = [])) ∧
    (2 ^ 44 < limit →
      generate maxCap ⟨d1, d2, label1, label2, limit⟩ = .error .makesliceCap) ∧
    (limit ≤ 2 ^ 44 → (maxCap : Int) < limit →
      generate maxCap ⟨d1, d2, label1, label2, limit⟩ = .error .outOfMemory) := by
  have h1 : (⟨d1, d2, label1, label2, limit⟩ : Request).Int1 ≠ 0 := by simp; omega
  have h2 : (⟨d1, d2, label1, label2, limit⟩ : Request).Int2 ≠ 0 := by simp; omega
  refine ⟨fun hrt hmem => ⟨_, generate_of_ne_zero maxCap _ h1 h2 hlimit hrt hmem, ?_, ?_⟩,
    fun hbig => generate_of_large maxCap _ hbig,
    fun hrt hmem => generate_of_noMemory maxCap _ hlimit hrt hmem⟩
  · simp only [List.length_map, List.length_range]
    omega
  · intro h0
    simp [h0]

/-- The length of the sequence of the default request, on a machine with the
memory for 100 strings. -/
theorem generate_length_witness :
    ∃ res, generate 100 ⟨3, 5, "fizz", "buzz", 100⟩ = .ok res ∧
      (res.length : Int) = 100 ∧ ((100 : Int) = 0 → res = []) :=
  (generate_length 100 3 5 "fizz" "buzz" 100 (by decide) (by decide) (by decide)).1
    (by decide) (by decide)

/-! ## The claims on the aggregator -/

/-- C3: after `Aggregate` has consumed a non-empty sequence of requests from the
state of `NewService`, the tracked pair is an argmax of the table
(`counters[max] == maxCounter`, no count above `maxCounter`), so `Statistics`
reports a most frequent request of the sequence with its number of calls. -/
theorem aggregate_invariant (reqs : List Request) (hne : reqs ≠ []) :
    mapGet (NewService.Aggregate reqs).counters (NewService.Aggregate reqs).max
        = (NewService.Aggregate reqs).maxCounter ∧
      (∀ r, mapGet (NewService.Aggregate reqs).counters r
        ≤ (NewService.Aggregate reqs).maxCounter) ∧
      (NewService.Aggregate reqs).Statistics
        = { status := 200,
            payload := .statistics (NewService.Aggregate reqs).max
              (NewService.Aggregate reqs).maxCounter } ∧
      (NewService.Aggregate reqs).max ∈ reqs ∧
      (NewService.Aggregate reqs).maxCounter
        = (reqs.count (NewService.Aggregate reqs).max : Int) ∧
      ∀ r, reqs.count r ≤ reqs.count (NewService.Aggregate reqs).max := by
  obtain ⟨heq, hle⟩ := Aggregate_argmax reqs
  obtain ⟨k, r, hk, hmax, _, _⟩ := Aggregate_earliest reqs hne
  refine ⟨heq, hle, rfl, ?_, ?_, ?_⟩
  · rw [hmax]
    exact List.getElem?_mem hk
  · rw [← heq, Aggregate_get]
  · intro r0
    have h1 := hle r0
    rw [← heq, Aggregate_get, Aggregate_get] at h1
    exact_mod_cast h1

/-- The tracker after two requests differing in their limit. -/
theorem aggregate_invariant_witness :
    mapGet (NewService.Aggregate [⟨3, 5, "fizz", "buzz", 10⟩, ⟨3, 5, "fizz", "buzz", 100⟩]).counters
        (NewService.Aggregate [⟨3, 5, "fizz", "buzz", 10⟩, ⟨3, 5, "fizz", "buzz", 100⟩]).max
        = (NewService.Aggregate [⟨3, 5, "fizz", "buzz", 10⟩, ⟨3, 5, "fizz", "buzz", 100⟩]).maxCounter ∧
      (NewService.Aggregate [⟨3, 5, "fizz", "buzz", 10⟩, ⟨3, 5, "fizz", "buzz", 100⟩]).max
        ∈ [(⟨3, 5, "fizz", "buzz", 10⟩ : Request), ⟨3, 5, "fizz", "buzz", 100⟩] :=
  have h := aggregate_invariant [⟨3, 5, "fizz", "buzz", 10⟩, ⟨3, 5, "fizz", "buzz", 100⟩]
    (by simp)
  ⟨h.1, h.2.2.2.1⟩

/-- C4: one step of `Aggregate` on a request `r` in a reachable state. With `c`
the new count of `r`: when `c` is strictly greater than the previous
`maxCounter` the pair `(max, maxCounter)` becomes `(r, c)`; otherwise, ties
included, `max` and `maxCounter` are unchanged; and the pair is `(r, c)` after
the step exactly when `c` was strictly greater. -/
theorem aggregateStep_tracker (reqs : List Request) (r : Request) :
    mapGet ((NewService.Aggregate reqs).aggregateStep r).counters r
        = mapGet (NewService.Aggregate reqs).counters r + 1 ∧
      (mapGet ((NewService.Aggregate reqs).aggregateStep r).counters r
          > (NewService.Aggregate reqs).maxCounter →
        ((NewService.Aggregate reqs).aggregateStep r).max = r ∧
        ((NewService.Aggregate reqs).aggregateStep r).maxCounter
          = mapGet ((NewService.Aggregate reqs).aggregateStep r).counters r) ∧
      (¬ mapGet ((NewService.Aggregate reqs).aggregateStep r).counters r
          > (NewService.Aggregate reqs).maxCounter →
        ((NewService.Aggregate reqs).aggregateStep r).max = (NewService.Aggregate reqs).max ∧
        ((NewService.Aggregate reqs).aggregateStep r).maxCounter
          = (NewService.Aggregate reqs).maxCounter) ∧
      ((((NewService.Aggregate reqs).aggregateStep r).max = r ∧
          ((NewService.Aggregate reqs).aggregateStep r).maxCounter
            = mapGet ((NewService.Aggregate reqs).aggregateStep r).counters r) ↔
        mapGet ((NewService.Aggregate reqs).aggregateStep r).counters r
          > (NewService.Aggregate reqs).maxCounter) := by
  rw [aggregateStep_get_self]
  obtain ⟨heq, _⟩ := Aggregate_argmax reqs
  refine ⟨rfl, aggregateStep_max_of_gt _ _, aggregateStep_max_of_not_gt _ _, ?_,
    aggregateStep_max_of_gt _ _⟩
  rintro ⟨hm, hc⟩
  by_contra hgt
  obtain ⟨hm1, hc1⟩ := aggregateStep_max_of_not_gt _ _ hgt
  rw [hm1] at hm
  rw [hc1, ← heq, hm] at hc
  omega

/-- C7: no lost updates. A step of `Aggregate` adds exactly 1 to the count of
the consumed request and changes no other count; after a sequence consumed from
the initial state the count of each request is its number of occurrences, each
request has at most one entry in the table, the counts sum to the length of the
sequence, and the final counts do not depend on the order of delivery. -/
theorem aggregate_counts (reqs : List Request) :
    (∀ (s : Service) (r : Request),
        mapGet (s.aggregateStep r).counters r = mapGet s.counters r + 1 ∧
        ∀ r1, r1 ≠ r → mapGet (s.aggregateStep r).counters r1 = mapGet s.counters r1) ∧
      (∀ r, mapGet (NewService.Aggregate reqs).counters r = (reqs.count r : Int)) ∧
      ((NewService.Aggregate reqs).counters.map Prod.fst).Nodup ∧
      ((NewService.Aggregate reqs).counters.map Prod.snd).sum = (reqs.length : Int) ∧
      (∀ reqs2, reqs.Perm reqs2 → ∀ r,
        mapGet (NewService.Aggregate reqs2).counters r
          = mapGet (NewService.Aggregate reqs).counters r) := by
  refine ⟨fun s r => ⟨aggregateStep_get_self s r, fun r1 h => aggregateStep_get_ne s r r1 h⟩,
    Aggregate_get reqs, Aggregate_nodup reqs, Aggregate_sum reqs, ?_⟩
  intro reqs2 hperm r
  rw [Aggregate_get, Aggregate_get, hperm.count_eq]

/-- C8: tie-break. For a non-empty sequence of recorded requests and `m` the
largest count of the final table, the request reported as `max` is the request
of the earliest record that brought a count up to `m`: that record `k` gave its
request the count `m`, every earlier record gave a smaller count, and from
record `k` on the tracker holds that request with `m`, whatever ties later. -/
theorem aggregate_tie_break (reqs : List Request) (m : Int) (hne : reqs ≠ [])
    (hmax : ∀ r, mapGet (NewService.Aggregate reqs).counters r ≤ m)
    (hm : ∃ r, mapGet (NewService.Aggregate reqs).counters r = m) :
    ∃ k r, reqs[k]? = some r ∧ (NewService.Aggregate reqs).max = r ∧
      mapGet (NewService.Aggregate (reqs.take (k + 1))).counters r = m ∧
      (∀ j r1, j < k → reqs[j]? = some r1 →
        mapGet (NewService.Aggregate (reqs.take (j + 1))).counters r1 < m) ∧
      (∀ j, k ≤ j →
        (NewService.Aggregate (reqs.take (j + 1))).max = r ∧
        (NewService.Aggregate (reqs.take (j + 1))).maxCounter = m) := by
  obtain ⟨heq, hle⟩ := Aggregate_argmax reqs
  have hmc : (NewService.Aggregate reqs).maxCounter = m := by
    obtain ⟨r0, hr0⟩ := hm
    have h1 := hmax (NewService.Aggregate reqs).max
    have h2 := hle r0
    omega
  obtain ⟨k, r, hk, hmaxr, hcnt, hearlier⟩ := Aggregate_earliest reqs hne
  rw [hmc] at hcnt hearlier
  refine ⟨k, r, hk, hmaxr, ?_, ?_, ?_⟩
  · rw [Aggregate_get]
    exact hcnt
  · intro j r1 hj hr1
    rw [Aggregate_get]
    exact hearlier j r1 hj hr1
  · intro j hj
    have hsplit : ∀ n, reqs = reqs.take n ++ reqs.drop n := fun n =>
      (List.take_append_drop n reqs).symm
    have hkj : reqs.take (j + 1) = reqs.take (k + 1) ++ (reqs.take (j + 1)).drop (k + 1) := by
      conv_lhs => rw [← List.take_append_drop (k + 1) (reqs.take (j + 1))]
      rw [List.take_take, Nat.min_eq_left (by omega)]
    have hA := Aggregate_mono (reqs.take (k + 1)) ((reqs.take (j + 1)).drop (k + 1))
    rw [← hkj] at hA
    have hB := Aggregate_mono (reqs.take (j + 1)) (reqs.drop (j + 1))
    rw [← hsplit] at hB
    have hC := (Aggregate_argmax (reqs.take (k + 1))).2 r
    rw [Aggregate_get, hcnt] at hC
    rw [hmc] at hB
    have e1 : (NewService.Aggregate (reqs.take (j + 1))).maxCounter = m := by omega
    refine ⟨?_, e1⟩
    rw [← hmaxr]
    exact (hB.2 (by omega)).symm

/-- Two distinct requests recorded once each: the first one keeps the title. -/
theorem aggregate_tie_break_witness :
    ∃ k r, [(⟨3, 5, "fizz", "buzz", 10⟩ : Request), ⟨3, 5, "fizz", "buzz", 100⟩][k]? = some r ∧
      (NewService.Aggregate [⟨3, 5, "fizz", "buzz", 10⟩, ⟨3, 5, "fizz", "buzz", 100⟩]).max = r ∧
      mapGet (NewService.Aggregate
        ([(⟨3, 5, "fizz", "buzz", 10⟩ : Request), ⟨3, 5, "fizz", "buzz", 100⟩].take (k + 1))).counters r
        = 1 ∧
      (∀ j r1, j < k →
        [(⟨3, 5, "fizz", "buzz", 10⟩ : Request), ⟨3, 5, "fizz", "buzz", 100⟩][j]? = some r1 →
        mapGet (NewService.Aggregate
          ([(⟨3, 5, "fizz", "buzz", 10⟩ : Request), ⟨3, 5, "fizz", "buzz", 100⟩].take (j + 1))).counters
          r1 < 1) ∧
      (∀ j, k ≤ j →
        (NewService.Aggregate
          ([(⟨3, 5, "fizz", "buzz", 10⟩ : Request), ⟨3, 5, "fizz", "buzz", 100⟩].take (j + 1))).max = r ∧
        (NewService.Aggregate
          ([(⟨3, 5, "fizz", "buzz", 10⟩ : Request), ⟨3, 5, "fizz", "buzz", 100⟩].take
            (j + 1))).maxCounter = 1) :=
  aggregate_tie_break [⟨3, 5, "fizz", "buzz", 10⟩, ⟨3, 5, "fizz", "buzz", 100⟩] 1 (by simp)
    (fun r => by
      rw [Aggregate_get]
      exact_mod_cast count_two_le_one _ _ r (by decide))
    ⟨⟨3, 5, "fizz", "buzz", 10⟩, by decide⟩

/-! ## Lemmas on the request normaliser -/

theorem length_eq_zero_iff (s : String) : s.length = 0 ↔ s = "" := by
  cases s with
  | mk d => simp [String.length, String.ext_iff]

theorem parseInt_of_empty (r : HTTPRequest) (key : String) (d : Int)
    (h : FormValue r key = "") : parseInt r key d = .ok d := by
  simp [parseInt, h]

theorem parseInt_of_nonempty (r : HTTPRequest) (key : String) (d : Int)
    (h : FormValue r key ≠ "") :
    parseInt r key d
      = match Atoi (FormValue r key) with
        | .error err => .error (.parsing key err)
        | .ok res => .ok res := by
  have : ¬ (FormValue r key).length = 0 := fun e => h ((length_eq_zero_iff _).1 e)
  simp [parseInt, this]

theorem FormValue_of_missing (r : HTTPRequest) (key : String)
    (h : r.Form.lookup key = none) : FormValue r key = "" := by
  simp [FormValue, h]

theorem parseInt_error_iff (r : HTTPRequest) (key : String) (d : Int) :
    (∃ e, parseInt r key d = .error e) ↔
      FormValue r key ≠ "" ∧ ∃ e0, Atoi (FormValue r key) = .error e0 := by
  by_cases h : FormValue r key = ""
  · simp [parseInt_of_empty r key d h, h]
  · rw [parseInt_of_nonempty r key d h]
    cases hA : Atoi (FormValue r key) with
    | error e0 => simp [h]
    | ok n => simp

theorem parseInt_ok_iff (r : HTTPRequest) (key : String) (d n : Int) :
    parseInt r key d = .ok n ↔
      (FormValue r key = "" ∧ n = d) ∨
      (FormValue r key ≠ "" ∧ Atoi (FormValue r key) = .ok n) := by
  by_cases h : FormValue r key = ""
  · simp [parseInt_of_empty r key d h, h, eq_comm]
  · rw [parseInt_of_nonempty r key d h]
    cases hA : Atoi (FormValue r key) with
    | error e0 => simp [h]
    | ok n0 => simp [h]

/-- The errors of `ParseRequest` in terms of the three calls of `parseInt`. -/
theorem ParseRequest_error_iff (r : HTTPRequest) :
    (∃ err, ParseRequest r = .error err) ↔
      (∃ e, parseInt r "int1" 3 = .error e) ∨ (∃ e, parseInt r "int2" 5 = .error e) ∨
      (∃ e, parseInt r "limit" 100 = .error e) ∨
      (∃ n, parseInt r "limit" 100 = .ok n ∧ n < 0) := by
  unfold ParseRequest
  cases h1 : parseInt r "int1" 3 with
  | error e1 => simp
  | ok n1 =>
    cases h2 : parseInt r "int2" 5 with
    | error e2 => simp
    | ok n2 =>
      cases h3 : parseInt r "limit" 100 with
      | error e3 => simp
      | ok n3 =>
        by_cases hneg : n3 < 0
        · simp [hneg]
        · simp [hneg]

theorem ParseRequest_ok_iff (r : HTTPRequest) (req : Request) :
    ParseRequest r = .ok req ↔
      parseInt r "int1" 3 = .ok req.Int1 ∧ parseInt r "int2" 5 = .ok req.Int2 ∧
      req.Str1 = (if (FormValue r "str1").length = 0 then "fizz" else FormValue r "str1") ∧
      req.Str2 = (if (FormValue r "str2").length = 0 then "buzz" else FormValue r "str2") ∧
      parseInt r "limit" 100 = .ok req.Limit ∧ 0 ≤ req.Limit := by
  unfold ParseRequest
  obtain ⟨a, b, c, d, e⟩ := req
  cases h1 : parseInt r "int1" 3 with
  | error e1 => simp
  | ok n1 =>
    cases h2 : parseInt r "int2" 5 with
    | error e2 => simp
    | ok n2 =>
      cases h3 : parseInt r "limit" 100 with
      | error e3 => simp
      | ok n3 =>
        by_cases hneg : n3 < 0
        · simp only [hneg, if_true, Except.ok.injEq, false_iff, reduceCtorEq]
          rintro ⟨_, _, _, _, h5, h6⟩
          omega
        · simp only [hneg, if_false, Except.ok.injEq, Request.mk.injEq]
          constructor
          · rintro ⟨rfl, rfl, rfl, rfl, rfl⟩
            exact ⟨rfl, rfl, rfl, rfl, rfl, by omega⟩
          · rintro ⟨rfl, rfl, rfl, rfl, rfl, _⟩
            exact ⟨rfl, rfl, rfl, rfl, rfl⟩

/-! ## The claims on the request normaliser -/

/-- C5: `ParseRequest` fails if and only if one of `int1`, `int2`, `limit` is
non-empty and rejected by `strconv.Atoi`, or `limit` parses to a negative
integer. `limit=-1` and `int1=abc` are rejected; `limit=0`, `int1=0`, `int2=0`
and negative divisors are accepted. -/
theorem parseRequest_fails_iff (r : HTTPRequest) :
    ((∃ err, ParseRequest r = .error err) ↔
      (FormValue r "int1" ≠ "" ∧ ∃ e, Atoi (FormValue r "int1") = .error e) ∨
      (FormValue r "int2" ≠ "" ∧ ∃ e, Atoi (FormValue r "int2") = .error e) ∨
      (FormValue r "limit" ≠ "" ∧ ∃ e, Atoi (FormValue r "limit") = .error e) ∨
      (FormValue r "limit" ≠ "" ∧ ∃ n, Atoi (FormValue r "limit") = .ok n ∧ n < 0)) ∧
    ParseRequest ⟨[("limit", ["-1"])]⟩ = .error .invalidLimit ∧
    ParseRequest ⟨[("int1", ["abc"])]⟩ = .error (.parsing "int1" .ErrSyntax) ∧
    ParseRequest ⟨[("limit", ["0"])]⟩ = .ok ⟨3, 5, "fizz", "buzz", 0⟩ ∧
    ParseRequest ⟨[("int1", ["0"])]⟩ = .ok ⟨0, 5, "fizz", "buzz", 100⟩ ∧
    ParseRequest ⟨[("int2", ["0"])]⟩ = .ok ⟨3, 0, "fizz", "buzz", 100⟩ ∧
    ParseRequest ⟨[("int1", ["-3"]), ("int2", ["-5"])]⟩ = .ok ⟨-3, -5, "fizz", "buzz", 100⟩ := by
  refine ⟨?_, by decide, by decide, by decide, by decide, by decide, by decide⟩
  rw [ParseRequest_error_iff, parseInt_error_iff, parseInt_error_iff, parseInt_error_iff]
  have hlast : (∃ n, parseInt r "limit" 100 = .ok n ∧ n < 0) ↔
      (FormValue r "limit" ≠ "" ∧ ∃ n, Atoi (FormValue r "limit") = .ok n ∧ n < 0) := by
    constructor
    · rintro ⟨n, hn, hneg⟩
      rcases (parseInt_ok_iff _ _ _ _).1 hn with ⟨_, h100⟩ | ⟨hne, hA⟩
      · omega
      · exact ⟨hne, n, hA, hneg⟩
    · rintro ⟨hne, n, hA, hneg⟩
      exact ⟨n, (parseInt_ok_iff _ _ _ _).2 (Or.inr ⟨hne, hA⟩), hneg⟩
  rw [hlast]

/-- C6: when `ParseRequest` succeeds, a field whose parameter is missing or
empty takes its default (3, 5, "fizz", "buzz", 100) and every other field is
the supplied value: the integer parsed by `strconv.Atoi`, or the string as
given. The request without parameters yields the five defaults. -/
theorem parseRequest_fields (r : HTTPRequest) (req : Request)
    (h : ParseRequest r = .ok req) :
    (∀ key, r.Form.lookup key = none → FormValue r key = "") ∧
    (FormValue r "int1" = "" → req.Int1 = 3) ∧
    (FormValue r "int1" ≠ "" → Atoi (FormValue r "int1") = .ok req.Int1) ∧
    (FormValue r "int2" = "" → req.Int2 = 5) ∧
    (FormValue r "int2" ≠ "" → Atoi (FormValue r "int2") = .ok req.Int2) ∧
    (FormValue r "str1" = "" → req.Str1 = "fizz") ∧
    (FormValue r "str1" ≠ "" → req.Str1 = FormValue r "str1") ∧
    (FormValue r "str2" = "" → req.Str2 = "buzz") ∧
    (FormValue r "str2" ≠ "" → req.Str2 = FormValue r "str2") ∧
    (FormValue r "limit" = "" → req.Limit = 100) ∧
    (FormValue r "limit" ≠ "" → Atoi (FormValue r "limit") = .ok req.Limit) ∧
    ParseRequest ⟨[]⟩ = .ok ⟨3, 5, "fizz", "buzz", 100⟩ := by
  obtain ⟨h1, h2, h3, h4, h5, _⟩ := (ParseRequest_ok_iff r req).1 h
  rw [parseInt_ok_iff] at h1 h2 h5
  simp only [length_eq_zero_iff] at h3 h4
  refine ⟨FormValue_of_missing r, ?_, ?_, ?_, ?_, ?_, ?_, ?_, ?_, ?_, ?_, by decide⟩
  · intro e; rcases h1 with ⟨_, h⟩ | ⟨hne, _⟩
    · exact h
    · exact absurd e hne
  · intro e; rcases h1 with ⟨he, _⟩ | ⟨_, h⟩
    · exact absurd he e
    · exact h
  · intro e; rcases h2 with ⟨_, h⟩ | ⟨hne, _⟩
    · exact h
    · exact absurd e hne
  · intro e; rcases h2 with ⟨he, _⟩ | ⟨_, h⟩
    · exact absurd he e
    · exact h
  · intro e; rw [h3, if_pos e]
  · intro e; rw [h3, if_neg e]
  · intro e; rw [h4, if_pos e]
  · intro e; rw [h4, if_neg e]
  · intro e; rcases h5 with ⟨_, h⟩ | ⟨hne, _⟩
    · exact h
    · exact absurd e hne
  · intro e; rcases h5 with ⟨he, _⟩ | ⟨_, h⟩
    · exact absurd he e
    · exact h

/-- A request giving `int1` and `str1` only. -/
theorem parseRequest_fields_witness :
    (FormValue ⟨[("int1", ["7"]), ("str1", ["foo"])]⟩ "int1" ≠ "" →
      Atoi (FormValue ⟨[("int1", ["7"]), ("str1", ["foo"])]⟩ "int1") = .ok 7) ∧
    (FormValue ⟨[("int1", ["7"]), ("str1", ["foo"])]⟩ "int2" = "" → (5 : Int) = 5) ∧
    (FormValue ⟨[("int1", ["7"]), ("str1", ["foo"])]⟩ "str1" ≠ "" →
      "foo" = FormValue ⟨[("int1", ["7"]), ("str1", ["foo"])]⟩ "str1") :=
  have h := parseRequest_fields ⟨[("int1", ["7"]), ("str1", ["foo"])]⟩
    ⟨7, 5, "foo", "buzz", 100⟩ (by decide)
  ⟨h.2.2.1, h.2.2.2.1, h.2.2.2.2.2.2.1⟩

/-! ## Lemmas on the endpoint -/

theorem FizzBuzz_of_error (maxCap : Nat) (r : HTTPRequest) (err : ParseError)
    (h : ParseRequest r = .error err) :
    Service.FizzBuzz maxCap r = .ok (⟨400, .error err⟩, none) := by
  simp [Service.FizzBuzz, h, write]

theorem FizzBuzz_of_ok (maxCap : Nat) (r : HTTPRequest) (req : Request) (res : List String)
    (h : ParseRequest r = .ok req) (hg : generate maxCap req = .ok res) :
    Service.FizzBuzz maxCap r = .ok (⟨200, .result res⟩, some req) := by
  simp [Service.FizzBuzz, h, hg, write]

theorem FizzBuzz_of_fault (maxCap : Nat) (r : HTTPRequest) (req : Request) (f : Fault)
    (h : ParseRequest r = .ok req) (hg : generate maxCap req = .error f) :
    Service.FizzBuzz maxCap r = .error f := by
  simp [Service.FizzBuzz, h, hg]

theorem serve_of_ok (maxCap : Nat) (s : Service) (r : HTTPRequest) (req : Request)
    (res : List String) (h : ParseRequest r = .ok req) (hg : generate maxCap req = .ok res) :
    s.serve maxCap r = s.aggregateStep req := by
  simp [Service.serve, FizzBuzz_of_ok maxCap r req res h hg]

theorem serve_of_error (maxCap : Nat) (s : Service) (r : HTTPRequest) (err : ParseError)
    (h : ParseRequest r = .error err) : s.serve maxCap r = s := by
  simp [Service.serve, FizzBuzz_of_error maxCap r err h]

theorem serve_of_fault (maxCap : Nat) (s : Service) (r : HTTPRequest) (req : Request)
    (f : Fault) (h : ParseRequest r = .ok req) (hg : generate maxCap req = .error f) :
    s.serve maxCap r = s := by
  simp [Service.serve, FizzBuzz_of_fault maxCap r req f h hg]

theorem FizzBuzz_congr (maxCap : Nat) (r r2 : HTTPRequest) (req : Request)
    (h : ParseRequest r = .ok req) (h2 : ParseRequest r2 = .ok req) :
    Service.FizzBuzz maxCap r = Service.FizzBuzz maxCap r2 := by
  simp [Service.FizzBuzz, h, h2]

/-! ## The claims on the endpoint -/

/-- The query `limit=9223372036854775807` is accepted by `ParseRequest` with the
non-zero default divisors, and the endpoint answers neither 400 nor 200: on
every machine `make` panics and no response is written. -/
theorem fizzBuzz_status_counterexample :
    ParseRequest ⟨[("limit", ["9223372036854775807"])]⟩
        = .ok ⟨3, 5, "fizz", "buzz", 9223372036854775807⟩ ∧
      ∀ maxCap : Nat,
        Service.FizzBuzz maxCap ⟨[("limit", ["9223372036854775807"])]⟩
          = .error .makesliceCap :=
  ⟨by decide, fun maxCap =>
    FizzBuzz_of_fault maxCap _ ⟨3, 5, "fizz", "buzz", 9223372036854775807⟩ _ (by decide)
      (generate_of_large maxCap _ (by decide))⟩

/-- C9, amended: the endpoint `Service.FizzBuzz` answers with status 400 if and
only if `ParseRequest` fails on the request, the payload being then the error;
when `ParseRequest` succeeds with non-zero divisors and a limit of at most
`2^44` for which the machine has the memory (`Limit ≤ maxCap`), it answers
with status 200 and the payload whose result is the sequence generated for the
normalised request; when the limit is above `2^44` or above `maxCap` it writes
no response. -/
theorem fizzBuzz_status (maxCap : Nat) (r : HTTPRequest) :
    ((∃ resp sent, Service.FizzBuzz maxCap r = .ok (resp, sent) ∧ resp.status = 400) ↔
      ∃ err, ParseRequest r = .error err) ∧
    (∀ err, ParseRequest r = .error err →
      Service.FizzBuzz maxCap r = .ok (⟨400, .error err⟩, none)) ∧
    (∀ req, ParseRequest r = .ok req → req.Int1 ≠ 0 → req.Int2 ≠ 0 →
      req.Limit ≤ 2 ^ 44 → req.Limit ≤ (maxCap : Int) →
      ∃ res, generate maxCap req = .ok res ∧
        Service.FizzBuzz maxCap r = .ok (⟨200, .result res⟩, some req)) ∧
    (∀ req, ParseRequest r = .ok req → 2 ^ 44 < req.Limit →
      Service.FizzBuzz maxCap r = .error .makesliceCap) ∧
    (∀ req, ParseRequest r = .ok req → req.Limit ≤ 2 ^ 44 → (maxCap : Int) < req.Limit →
      Service.FizzBuzz maxCap r = .error .outOfMemory) := by
  refine ⟨⟨?_, ?_⟩, FizzBuzz_of_error maxCap r, ?_, ?_, ?_⟩
  · rintro ⟨resp, sent, hresp, hstatus⟩
    cases hp : ParseRequest r with
    | error err => exact ⟨err, rfl⟩
    | ok req =>
      cases hg : generate maxCap req with
      | error f =>
        rw [FizzBuzz_of_fault maxCap r req f hp hg] at hresp
        cases hresp
      | ok res =>
        rw [FizzBuzz_of_ok maxCap r req res hp hg] at hresp
        cases hresp
        simp at hstatus
  · rintro ⟨err, herr⟩
    exact ⟨_, _, FizzBuzz_of_error maxCap r err herr, rfl⟩
  · intro req hp h1 h2 hrt hmem
    have h0 : 0 ≤ req.Limit := ((ParseRequest_ok_iff r req).1 hp).2.2.2.2.2
    have hg := generate_of_ne_zero maxCap req h1 h2 h0 hrt hmem
    exact ⟨_, hg, FizzBuzz_of_ok maxCap r req _ hp hg⟩
  · intro req hp hbig
    exact FizzBuzz_of_fault maxCap r req _ hp (generate_of_large maxCap req hbig)
  · intro req hp hrt hmem
    have h0 : 0 ≤ req.Limit := ((ParseRequest_ok_iff r req).1 hp).2.2.2.2.2
    exact FizzBuzz_of_fault maxCap r req _ hp (generate_of_noMemory maxCap req h0 hrt hmem)

/-- C10: the endpoint hands a request to the aggregator if and only if
`ParseRequest` succeeded and the generation completed, and what it hands over is
the value returned by `ParseRequest`; a request answered with 400 hands nothing
over and leaves the table and the tracker unchanged; two requests with the same
normalised value have the same effect on the state, and when the generation
completes both increment the counter of that value, as the request without
parameters and `int1=3&int2=5&str1=fizz&str2=buzz&limit=100` do on a machine
with the memory for 100 strings. -/
theorem fizzBuzz_handoff (maxCap : Nat) (r : HTTPRequest) :
    (∀ req, (∃ resp, Service.FizzBuzz maxCap r = .ok (resp, some req)) ↔
      (ParseRequest r = .ok req ∧ ∃ res, generate maxCap req = .ok res)) ∧
    (∀ (s : Service) resp sent, Service.FizzBuzz maxCap r = .ok (resp, sent) →
      resp.status = 400 → sent = none ∧ s.serve maxCap r = s) ∧
    (∀ (s : Service) r2 req, ParseRequest r = .ok req → ParseRequest r2 = .ok req →
      s.serve maxCap r = s.serve maxCap r2 ∧
      ((∃ res, generate maxCap req = .ok res) →
        s.serve maxCap r = s.aggregateStep req ∧ s.serve maxCap r2 = s.aggregateStep req ∧
        mapGet ((s.serve maxCap r).serve maxCap r2).counters req
          = mapGet s.counters req + 2)) ∧
    ParseRequest ⟨[]⟩ = ParseRequest ⟨[("int1", ["3"]), ("int2", ["5"]), ("str1", ["fizz"]),
      ("str2", ["buzz"]), ("limit", ["100"])]⟩ ∧
    (100 ≤ maxCap →
      mapGet (((NewService.serve maxCap ⟨[]⟩).serve maxCap ⟨[("int1", ["3"]), ("int2", ["5"]),
        ("str1", ["fizz"]), ("str2", ["buzz"]), ("limit", ["100"])]⟩).counters)
        ⟨3, 5, "fizz", "buzz", 100⟩ = 2) := by
  have hpair : ∀ (s : Service) (r1 r2 : HTTPRequest) (req : Request) (res : List String),
      ParseRequest r1 = .ok req → ParseRequest r2 = .ok req →
      generate maxCap req = .ok res →
      s.serve maxCap r1 = s.aggregateStep req ∧ s.serve maxCap r2 = s.aggregateStep req ∧
      mapGet ((s.serve maxCap r1).serve maxCap r2).counters req
        = mapGet s.counters req + 2 := by
    intro s r1 r2 req res hp1 hp2 hg
    have e1 : ∀ s0 : Service, s0.serve maxCap r1 = s0.aggregateStep req := fun s0 =>
      serve_of_ok maxCap s0 r1 req _ hp1 hg
    have e2 : ∀ s0 : Service, s0.serve maxCap r2 = s0.aggregateStep req := fun s0 =>
      serve_of_ok maxCap s0 r2 req _ hp2 hg
    refine ⟨e1 s, e2 s, ?_⟩
    rw [e2, e1, aggregateStep_get_self, aggregateStep_get_self]
    ring
  refine ⟨?_, ?_, ?_, by decide, ?_⟩
  · intro req
    constructor
    · rintro ⟨resp, hresp⟩
      cases hp : ParseRequest r with
      | error err =>
        rw [FizzBuzz_of_error maxCap r err hp] at hresp
        cases hresp
      | ok req0 =>
        cases hg : generate maxCap req0 with
        | error f =>
          rw [FizzBuzz_of_fault maxCap r req0 f hp hg] at hresp
          cases hresp
        | ok res =>
          rw [FizzBuzz_of_ok maxCap r req0 res hp hg] at hresp
          cases hresp
          exact ⟨rfl, res, hg⟩
    · rintro ⟨hp, res, hg⟩
      exact ⟨_, FizzBuzz_of_ok maxCap r req res hp hg⟩
  · intro s resp sent hresp hstatus
    cases hp : ParseRequest r with
    | error err =>
      rw [FizzBuzz_of_error maxCap r err hp] at hresp
      cases hresp
      exact ⟨rfl, serve_of_error maxCap s r err hp⟩
    | ok req0 =>
      cases hg : generate maxCap req0 with
      | error f =>
        rw [FizzBuzz_of_fault maxCap r req0 f hp hg] at hresp
        cases hresp
      | ok res =>
        rw [FizzBuzz_of_ok maxCap r req0 res hp hg] at hresp
        cases hresp
        simp at hstatus
  · intro s r2 req hp hp2
    refine ⟨?_, fun ⟨res, hg⟩ => hpair s r r2 req res hp hp2 hg⟩
    unfold Service.serve
    rw [FizzBuzz_congr maxCap r r2 req hp hp2]
  · intro hcap
    have hg := generate_of_ne_zero maxCap ⟨3, 5, "fizz", "buzz", 100⟩ (by decide) (by decide)
      (by decide) (by decide) (by show (100 : Int) ≤ (maxCap : Int); exact_mod_cast hcap)
    have h := (hpair NewService ⟨[]⟩ ⟨[("int1", ["3"]), ("int2", ["5"]), ("str1", ["fizz"]),
      ("str2", ["buzz"]), ("limit", ["100"])]⟩ ⟨3, 5, "fizz", "buzz", 100⟩ _
      (by decide) (by decide) hg).2.2
    rw [h]
    decide

/-! ## The claims on the initial state and the concrete cases -/

/-- C11: in the state built by `NewService`, before any request has been
recorded, `Statistics` reports the zero-valued request and the total 0. -/
theorem statistics_initial :
    NewService.Statistics
        = { status := 200,
            payload := .statistics { Int1 := 0, Int2 := 0, Str1 := "", Str2 := "", Limit := 0 } 0 } ∧
      NewService.Aggregate [] = NewService ∧
      NewService.counters = [] := by
  refine ⟨by decide, rfl, rfl⟩

/-- C12: for `d1 = 3`, `d2 = 5`, the labels "fizz" and "buzz": the sequence
built by the loop for `limit = 15` is the list of the specification, and the
sequence built for `limit = 100` is the list expected by
`TestService_FizzBuzz`; they are the sequences generated on every machine with
the memory for 15, respectively 100, strings. -/
theorem generate_default :
    fizzBuzzLoop ⟨3, 5, "fizz", "buzz", 15⟩ 1 []
      = .ok ["1", "2", "fizz", "4", "buzz", "fizz", "7", "8", "fizz", "buzz", "11", "fizz",
          "13", "14", "fizzbuzz"] ∧
    fizzBuzzLoop ⟨3, 5, "fizz", "buzz", 100⟩ 1 []
      = .ok [
      "1", "2", "fizz", "4", "buzz", "fizz", "7", "8", "fizz", "buzz", "11", "fizz", "13", "14",
      "fizzbuzz", "16", "17", "fizz", "19", "buzz", "fizz", "22", "23", "fizz", "buzz", "26",
      "fizz", "28", "29", "fizzbuzz", "31", "32", "fizz", "34", "buzz", "fizz", "37", "38",
      "fizz", "buzz", "41", "fizz", "43", "44", "fizzbuzz", "46", "47", "fizz", "49", "buzz",
      "fizz", "52", "53", "fizz", "buzz", "56", "fizz", "58", "59", "fizzbuzz", "61", "62",
      "fizz", "64", "buzz", "fizz", "67", "68", "fizz", "buzz", "71", "fizz", "73", "74",
      "fizzbuzz", "76", "77", "fizz", "79", "buzz", "fizz", "82", "83", "fizz", "buzz", "86",
      "fizz", "88", "89", "fizzbuzz", "91", "92", "fizz", "94", "buzz", "fizz", "97", "98",
      "fizz", "buzz"] ∧
    (∀ maxCap : Nat, 15 ≤ maxCap →
      generate maxCap ⟨3, 5, "fizz", "buzz", 15⟩
        = .ok ["1", "2", "fizz", "4", "buzz", "fizz", "7", "8", "fizz", "buzz", "11", "fizz",
          "13", "14", "fizzbuzz"]) ∧
    (∀ maxCap : Nat, 100 ≤ maxCap →
      generate maxCap ⟨3, 5, "fizz", "buzz", 100⟩
        = .ok [
      "1", "2", "fizz", "4", "buzz", "fizz", "7", "8", "fizz", "buzz", "11", "fizz", "13", "14",
      "fizzbuzz", "16", "17", "fizz", "19", "buzz", "fizz", "22", "23", "fizz", "buzz", "26",
      "fizz", "28", "29", "fizzbuzz", "31", "32", "fizz", "34", "buzz", "fizz", "37", "38",
      "fizz", "buzz", "41", "fizz", "43", "44", "fizzbuzz", "46", "47", "fizz", "49", "buzz",
      "fizz", "52", "53", "fizz", "buzz", "56", "fizz", "58", "59", "fizzbuzz", "61", "62",
      "fizz", "64", "buzz", "fizz", "67", "68", "fizz", "buzz", "71", "fizz", "73", "74",
      "fizzbuzz", "76", "77", "fizz", "79", "buzz", "fizz", "82", "83", "fizz", "buzz", "86",
      "fizz", "88", "89", "fizzbuzz", "91", "92", "fizz", "94", "buzz", "fizz", "97", "98",
      "fizz", "buzz"]) := by
  have e15 : fizzBuzzLoop ⟨3, 5, "fizz", "buzz", 15⟩ 1 []
      = .ok ["1", "2", "fizz", "4", "buzz", "fizz", "7", "8", "fizz", "buzz", "11", "fizz",
          "13", "14", "fizzbuzz"] := by
    rw [fizzBuzzLoop_of_ne_zero _ (by decide) (by decide) (by decide) 15 1 [] (by decide)
      (by decide)]
    decide
  have e100 : fizzBuzzLoop ⟨3, 5, "fizz", "buzz", 100⟩ 1 []
      = .ok [
      "1", "2", "fizz", "4", "buzz", "fizz", "7", "8", "fizz", "buzz", "11", "fizz", "13", "14",
      "fizzbuzz", "16", "17", "fizz", "19", "buzz", "fizz", "22", "23", "fizz", "buzz", "26",
      "fizz", "28", "29", "fizzbuzz", "31", "32", "fizz", "34", "buzz", "fizz", "37", "38",
      "fizz", "buzz", "41", "fizz", "43", "44", "fizzbuzz", "46", "47", "fizz", "49", "buzz",
      "fizz", "52", "53", "fizz", "buzz", "56", "fizz", "58", "59", "fizzbuzz", "61", "62",
      "fizz", "64", "buzz", "fizz", "67", "68", "fizz", "buzz", "71", "fizz", "73", "74",
      "fizzbuzz", "76", "77", "fizz", "79", "buzz", "fizz", "82", "83", "fizz", "buzz", "86",
      "fizz", "88", "89", "fizzbuzz", "91", "92", "fizz", "94", "buzz", "fizz", "97", "98",
      "fizz", "buzz"] := by
    rw [fizzBuzzLoop_of_ne_zero _ (by decide) (by decide) (by decide) 100 1 [] (by decide)
      (by decide)]
    decide
  refine ⟨e15, e100, fun maxCap hcap => ?_, fun maxCap hcap => ?_⟩
  · unfold generate
    rw [makeSlice_ok maxCap _ (by decide) (by decide)
      (by show (15 : Int) ≤ (maxCap : Int); exact_mod_cast hcap)]
    exact e15
  · unfold generate
    rw [makeSlice_ok maxCap _ (by decide) (by decide)
      (by show (100 : Int) ≤ (maxCap : Int); exact_mod_cast hcap)]
    exact e100

/-- The tracker along the sequence A,A,A,B,B,B,B,A,A of two distinct requests. -/
theorem tracker_AB (A B : Request) (hab : A ≠ B) :
    (NewService.Aggregate [A, A, A, B, B, B, B]).max = B ∧
    (NewService.Aggregate [A, A, A, B, B, B, B]).maxCounter = 4 ∧
    (NewService.Aggregate [A, A, A, B, B, B, B, A]).max = B ∧
    (NewService.Aggregate [A, A, A, B, B, B, B, A]).maxCounter = 4 ∧
    (NewService.Aggregate [A, A, A, B, B, B, B, A, A]).max = A ∧
    (NewService.Aggregate [A, A, A, B, B, B, B, A, A]).maxCounter = 5 := by
  have h1 : (A == B) = false := by simpa using hab
  have h2 : (B == A) = false := by simpa using hab.symm
  simp [Service.Aggregate, Service.aggregateStep, NewService, mapSet, mapGet, List.lookup,
    hab, hab.symm, h1, h2]

/-- C13: for two distinct requests `A` and `B`, recording A,A,A,B,B,B,B,A,A from
the initial state: after the first 7 records `Statistics` reports `B` with the
count 4, still so after the 8th record, where `A` ties at 4, and after the 9
records it reports `A` with the count 5. -/
theorem statistics_sequence (A B : Request) (hab : A ≠ B) :
    (NewService.Aggregate [A, A, A, B, B, B, B]).Statistics
      = { status := 200, payload := .statistics B 4 } ∧
    (NewService.Aggregate [A, A, A, B, B, B, B, A]).Statistics
      = { status := 200, payload := .statistics B 4 } ∧
    mapGet (NewService.Aggregate [A, A, A, B, B, B, B, A]).counters A = 4 ∧
    (NewService.Aggregate [A, A, A, B, B, B, B, A, A]).Statistics
      = { status := 200, payload := .statistics A 5 } := by
  obtain ⟨m7, c7, m8, c8, m9, c9⟩ := tracker_AB A B hab
  have hstat : ∀ s : Service,
      s.Statistics = { status := 200, payload := .statistics s.max s.maxCounter } :=
    fun _ => rfl
  refine ⟨?_, ?_, ?_, ?_⟩
  · rw [hstat, m7, c7]
  · rw [hstat, m8, c8]
  · rw [Aggregate_get]
    simp [List.count_cons, hab, hab.symm]
  · rw [hstat, m9, c9]

/-- The sequence of `TestService_Statistics`, with the second and the fourth of
its requests. -/
theorem statistics_sequence_witness :
    (NewService.Aggregate
      [⟨5, 3, "fizz", "buzz", 100⟩, ⟨5, 3, "fizz", "buzz", 100⟩, ⟨5, 3, "fizz", "buzz", 100⟩,
        ⟨2, 6, "foo", "bar", 157⟩, ⟨2, 6, "foo", "bar", 157⟩, ⟨2, 6, "foo", "bar", 157⟩,
        ⟨2, 6, "foo", "bar", 157⟩]).Statistics
      = { status := 200, payload := .statistics ⟨2, 6, "foo", "bar", 157⟩ 4 } ∧
    (NewService.Aggregate
      [⟨5, 3, "fizz", "buzz", 100⟩, ⟨5, 3, "fizz", "buzz", 100⟩, ⟨5, 3, "fizz", "buzz", 100⟩,
        ⟨2, 6, "foo", "bar", 157⟩, ⟨2, 6, "foo", "bar", 157⟩, ⟨2, 6, "foo", "bar", 157⟩,
        ⟨2, 6, "foo", "bar", 157⟩, ⟨5, 3, "fizz", "buzz", 100⟩,
        ⟨5, 3, "fizz", "buzz", 100⟩]).Statistics
      = { status := 200, payload := .statistics ⟨5, 3, "fizz", "buzz", 100⟩ 5 } :=
  have h := statistics_sequence ⟨5, 3, "fizz", "buzz", 100⟩ ⟨2, 6, "foo", "bar", 157⟩
    (by decide)
  ⟨h.1, h.2.2.2⟩

/-! ## Lemmas on the zero divisors -/

theorem switchValue_of_zero (req : Request) (i : Int) (h : req.Int1 = 0 ∨ req.Int2 = 0) :
    switchValue req i = .error .divideByZero := by
  unfold switchValue case1 case2 case3
  by_cases h1 : req.Int1 = 0
  · simp [goRem, h1]
  · have h2 : req.Int2 = 0 := h.resolve_left h1
    by_cases ha : Int.tmod i req.Int1 = 0 <;> simp [goRem, h1, h2, ha]

theorem fizzBuzzLoop_of_zero (req : Request) (res : List String) (hlimit : 1 ≤ req.Limit)
    (h : req.Int1 = 0 ∨ req.Int2 = 0) : fizzBuzzLoop req 1 res = .error .divideByZero := by
  rw [fizzBuzzLoop]
  simp [hlimit, switchValue_of_zero req 1 h]

theorem generate_of_zero (maxCap : Nat) (req : Request) (hlimit : 1 ≤ req.Limit)
    (hrt : req.Limit ≤ 2 ^ 44) (hmem : req.Limit ≤ (maxCap : Int))
    (h : req.Int1 = 0 ∨ req.Int2 = 0) : generate maxCap req = .error .divideByZero := by
  unfold generate
  rw [makeSlice_ok maxCap req.Limit (by omega) hrt hmem]
  exact fizzBuzzLoop_of_zero req [] hlimit h

theorem generate_of_limit_zero (maxCap : Nat) (req : Request) (hlimit : req.Limit = 0) :
    generate maxCap req = .ok [] := by
  unfold generate
  rw [makeSlice_ok maxCap req.Limit (by omega) (by omega) (by omega)]
  simp only []
  rw [fizzBuzzLoop]
  have : ¬ (1 : Int) ≤ req.Limit := by omega
  simp [this]

theorem generate_of_negative (maxCap : Nat) (req : Request) (h : req.Limit < 0) :
    generate maxCap req = .error .makesliceCap := by
  unfold generate
  rw [makeSlice_negative maxCap req.Limit h]

/-- After `make` has returned the counter of the loop stays far below the
largest `int`: the generation never ends in `Fault.noReturn`. -/
theorem generate_ne_noReturn (maxCap : Nat) (req : Request) :
    generate maxCap req ≠ .error .noReturn := by
  intro hf
  by_cases hneg : req.Limit < 0
  · rw [generate_of_negative maxCap req hneg] at hf
    cases hf
  · by_cases hbig : 2 ^ 44 < req.Limit
    · rw [generate_of_large maxCap req hbig] at hf
      cases hf
    · by_cases hmem : (maxCap : Int) < req.Limit
      · rw [generate_of_noMemory maxCap req (by omega) (by omega) hmem] at hf
        cases hf
      · by_cases hz : req.Int1 = 0 ∨ req.Int2 = 0
        · by_cases h1 : 1 ≤ req.Limit
          · rw [generate_of_zero maxCap req h1 (by omega) (by omega) hz] at hf
            cases hf
          · rw [generate_of_limit_zero maxCap req (by omega)] at hf
            cases hf
        · have hne1 : req.Int1 ≠ 0 := fun e => hz (Or.inl e)
          have hne2 : req.Int2 ≠ 0 := fun e => hz (Or.inr e)
          rw [generate_of_ne_zero maxCap req hne1 hne2 (by omega) (by omega) (by omega)] at hf
          cases hf

/-- The value of the switch in its four cases, in terms of the remainders. -/
theorem pureValue_cases (req : Request) (i : Int) :
    (Int.tmod i req.Int1 = 0 ∧ Int.tmod i req.Int2 = 0 →
      pureValue req i = req.Str1 ++ req.Str2) ∧
    (Int.tmod i req.Int1 = 0 ∧ ¬ Int.tmod i req.Int2 = 0 → pureValue req i = req.Str1) ∧
    (¬ Int.tmod i req.Int1 = 0 ∧ Int.tmod i req.Int2 = 0 → pureValue req i = req.Str2) ∧
    (¬ Int.tmod i req.Int1 = 0 ∧ ¬ Int.tmod i req.Int2 = 0 → pureValue req i = Itoa i) := by
  unfold pureValue
  refine ⟨?_, ?_, ?_, ?_⟩ <;> intro h <;> simp [h.1, h.2]

/-! ## The further claims on the sequence generator -/

/-- The converse directions fail for some labels: with `label1 = "1"` the first
element of the sequence equals `label1` although 1 is not divisible by
`d1 = 3`. -/
theorem generate_iff_counterexample :
    ∃ res, generate 15 ⟨3, 5, "1", "buzz", 15⟩ = .ok res ∧
      ¬ (res[((1 : Int) - 1).toNat]? = some "1" ↔
          (Int.tmod 1 3 = 0 ∧ ¬ Int.tmod 1 5 = 0)) := by
  refine ⟨_, generate_of_ne_zero 15 _ (by decide) (by decide) (by decide) (by decide)
    (by decide), ?_⟩
  decide

/-- C14, amended: for `d1 ≥ 1`, `d2 ≥ 1`, all labels, a limit with
`0 ≤ limit ≤ 2^44` for which the machine has the memory (`limit ≤ maxCap`) and
`1 ≤ i ≤ limit`, element `i` is `label1 + label2` if `i%d1 == 0` and
`i%d2 == 0`, `label1` if only `i%d1 == 0`, `label2` if only `i%d2 == 0` and the
decimal string of `i` otherwise; each of the four converse directions holds
when its string differs from the three other candidate strings. -/
theorem generate_element_iff (maxCap : Nat) (d1 d2 : Int) (label1 label2 : String)
    (limit i : Int) (hd1 : 1 ≤ d1) (hd2 : 1 ≤ d2) (hlimit : 0 ≤ limit)
    (hrt : limit ≤ 2 ^ 44) (hmem : limit ≤ (maxCap : Int)) (hi1 : 1 ≤ i) (hi2 : i ≤ limit) :
    ∃ res v, generate maxCap ⟨d1, d2, label1, label2, limit⟩ = .ok res ∧
      res[(i - 1).toNat]? = some v ∧
      (Int.tmod i d1 = 0 ∧ Int.tmod i d2 = 0 → v = label1 ++ label2) ∧
      (Int.tmod i d1 = 0 ∧ ¬ Int.tmod i d2 = 0 → v = label1) ∧
      (¬ Int.tmod i d1 = 0 ∧ Int.tmod i d2 = 0 → v = label2) ∧
      (¬ Int.tmod i d1 = 0 ∧ ¬ Int.tmod i d2 = 0 → v = Itoa i) ∧
      (label1 ++ label2 ≠ label1 ∧ label1 ++ label2 ≠ label2 ∧ label1 ++ label2 ≠ Itoa i →
        (v = label1 ++ label2 ↔ Int.tmod i d1 = 0 ∧ Int.tmod i d2 = 0)) ∧
      (label1 ≠ label1 ++ label2 ∧ label1 ≠ label2 ∧ label1 ≠ Itoa i →
        (v = label1 ↔ Int.tmod i d1 = 0 ∧ ¬ Int.tmod i d2 = 0)) ∧
      (label2 ≠ label1 ++ label2 ∧ label2 ≠ label1 ∧ label2 ≠ Itoa i →
        (v = label2 ↔ ¬ Int.tmod i d1 = 0 ∧ Int.tmod i d2 = 0)) ∧
      (Itoa i ≠ label1 ++ label2 ∧ Itoa i ≠ label1 ∧ Itoa i ≠ label2 →
        (v = Itoa i ↔ ¬ Int.tmod i d1 = 0 ∧ ¬ Int.tmod i d2 = 0)) := by
  have h1 : (⟨d1, d2, label1, label2, limit⟩ : Request).Int1 ≠ 0 := by simp; omega
  have h2 : (⟨d1, d2, label1, label2, limit⟩ : Request).Int2 ≠ 0 := by simp; omega
  have hlt : (i - 1).toNat < limit.toNat := by omega
  have hi : 1 + (((i - 1).toNat : Nat) : Int) = i := by omega
  obtain ⟨c1, c2, c3, c4⟩ := pureValue_cases ⟨d1, d2, label1, label2, limit⟩ i
  simp only [] at c1 c2 c3 c4
  refine ⟨_, pureValue ⟨d1, d2, label1, label2, limit⟩ i,
    generate_of_ne_zero maxCap _ h1 h2 hlimit hrt hmem, ?_, c1, c2, c3, c4, ?_, ?_, ?_, ?_⟩
  · rw [List.getElem?_map, List.getElem?_range hlt]
    simp only [Option.map_some', hi]
  all_goals
    rintro ⟨x1, x2, x3⟩
    by_cases ha : Int.tmod i d1 = 0 <;> by_cases hb : Int.tmod i d2 = 0
    · rw [c1 ⟨ha, hb⟩]
      simp [ha, hb, x1, x2, x3, x1.symm, x2.symm, x3.symm]
    · rw [c2 ⟨ha, hb⟩]
      simp [ha, hb, x1, x2, x3, x1.symm, x2.symm, x3.symm]
    · rw [c3 ⟨ha, hb⟩]
      simp [ha, hb, x1, x2, x3, x1.symm, x2.symm, x3.symm]
    · rw [c4 ⟨ha, hb⟩]
      simp [ha, hb, x1, x2, x3, x1.symm, x2.symm, x3.symm]

/-- The element 15 of the default request, whose string "fizzbuzz" differs from
the three other candidate strings. -/
theorem generate_element_iff_witness :
    ∃ res v, generate 100 ⟨3, 5, "fizz", "buzz", 100⟩ = .ok res ∧
      res[((15 : Int) - 1).toNat]? = some v ∧
      (v = "fizz" ++ "buzz" ↔ Int.tmod 15 3 = 0 ∧ Int.tmod 15 5 = 0) :=
  have ⟨res, v, hg, hv, _, _, _, _, hiff, _⟩ :=
    generate_element_iff 100 3 5 "fizz" "buzz" 100 15 (by decide) (by decide) (by decide)
      (by decide) (by decide) (by decide) (by decide)
  ⟨res, v, hg, hv, hiff (by decide)⟩

/-- The query `int1=0&limit=9223372036854775807` is accepted by `ParseRequest`;
its limit is at least 1 and a divisor is 0, yet on every machine the fault is
the panic of `make` before the loop, not a division by zero at `i = 1`; and with
the non-zero divisors 3 and 5 the same limit faults as well. -/
theorem generate_fault_counterexample :
    ParseRequest ⟨[("int1", ["0"]), ("limit", ["9223372036854775807"])]⟩
        = .ok ⟨0, 5, "fizz", "buzz", 9223372036854775807⟩ ∧
      (∀ maxCap : Nat,
        generate maxCap ⟨0, 5, "fizz", "buzz", 9223372036854775807⟩ = .error .makesliceCap) ∧
      (∀ maxCap : Nat,
        generate maxCap ⟨3, 5, "fizz", "buzz", 9223372036854775807⟩ = .error .makesliceCap) :=
  ⟨by decide, fun maxCap => generate_of_large maxCap _ (by decide),
    fun maxCap => generate_of_large maxCap _ (by decide)⟩

/-- C16, amended: division safety of `Service.FizzBuzz`. For a normalised
request (`Limit ≥ 0`) the generation faults with a division by zero if and only
if `Limit ≥ 1`, one of `Int1`, `Int2` is 0 and `make` returns (`Limit ≤ 2^44` and
the machine has the memory, `Limit ≤ maxCap`); the fault is that of the switch
at `i = 1`, the endpoint then writes no response and sends nothing to the
aggregator. When `make` returns, the generation returns with two non-zero
divisors, and it returns with `Limit = 0`. When `Limit > 2^44`, `make` panics
before the loop whatever the divisors. -/
theorem generate_fault_iff (maxCap : Nat) (req : Request) (hlimit : 0 ≤ req.Limit) :
    (generate maxCap req = .error .divideByZero ↔
      1 ≤ req.Limit ∧ req.Limit ≤ 2 ^ 44 ∧ req.Limit ≤ (maxCap : Int) ∧
        (req.Int1 = 0 ∨ req.Int2 = 0)) ∧
    (1 ≤ req.Limit → (req.Int1 = 0 ∨ req.Int2 = 0) →
      switchValue req 1 = .error .divideByZero ∧
      fizzBuzzLoop req 1 [] = .error .divideByZero) ∧
    (∀ (r : HTTPRequest) (s : Service), ParseRequest r = .ok req →
      generate maxCap req = .error .divideByZero →
      Service.FizzBuzz maxCap r = .error .divideByZero ∧ s.serve maxCap r = s) ∧
    (req.Limit ≤ 2 ^ 44 → req.Limit ≤ (maxCap : Int) → req.Int1 ≠ 0 → req.Int2 ≠ 0 →
      ∃ res, generate maxCap req = .ok res) ∧
    (req.Limit = 0 → generate maxCap req = .ok []) ∧
    (2 ^ 44 < req.Limit → generate maxCap req = .error .makesliceCap) ∧
    (req.Limit ≤ 2 ^ 44 → (maxCap : Int) < req.Limit →
      generate maxCap req = .error .outOfMemory) := by
  refine ⟨⟨?_, ?_⟩, ?_, ?_, ?_, ?_, ?_, ?_⟩
  · intro hf
    by_cases hbig : 2 ^ 44 < req.Limit
    · rw [generate_of_large maxCap req hbig] at hf
      cases hf
    · by_cases hmem : (maxCap : Int) < req.Limit
      · rw [generate_of_noMemory maxCap req hlimit (by omega) hmem] at hf
        cases hf
      · by_cases h1 : 1 ≤ req.Limit
        · refine ⟨h1, by omega, by omega, ?_⟩
          by_contra hne
          have hne1 : req.Int1 ≠ 0 := fun e => hne (Or.inl e)
          have hne2 : req.Int2 ≠ 0 := fun e => hne (Or.inr e)
          rw [generate_of_ne_zero maxCap req hne1 hne2 hlimit (by omega) (by omega)] at hf
          cases hf
        · rw [generate_of_limit_zero maxCap req (by omega)] at hf
          cases hf
  · rintro ⟨h1, hrt, hmem, hz⟩
    exact generate_of_zero maxCap req h1 hrt hmem hz
  · intro h1 hz
    exact ⟨switchValue_of_zero req 1 hz, fizzBuzzLoop_of_zero req [] h1 hz⟩
  · intro r s hp hf
    exact ⟨FizzBuzz_of_fault maxCap r req _ hp hf, serve_of_fault maxCap s r req _ hp hf⟩
  · intro hrt hmem hne1 hne2
    exact ⟨_, generate_of_ne_zero maxCap req hne1 hne2 hlimit hrt hmem⟩
  · intro h0
    exact generate_of_limit_zero maxCap req h0
  · intro hbig
    exact generate_of_large maxCap req hbig
  · intro hrt hmem
    exact generate_of_noMemory maxCap req hlimit hrt hmem

/-- The default request with `int1 = 0`, on a machine with the memory for 100
strings. -/
theorem generate_fault_iff_witness :
    (generate 100 ⟨0, 5, "fizz", "buzz", 100⟩ = .error .divideByZero ↔
      (1 : Int) ≤ 100 ∧ (100 : Int) ≤ 2 ^ 44 ∧ (100 : Int) ≤ ((100 : Nat) : Int) ∧
        ((0 : Int) = 0 ∨ (5 : Int) = 0)) ∧
    generate 100 ⟨0, 5, "fizz", "buzz", 100⟩ = .error .divideByZero :=
  have h := generate_fault_iff 100 ⟨0, 5, "fizz", "buzz", 100⟩ (by decide)
  ⟨h.1, h.1.2 (by decide)⟩

theorem pureValue_natAbs (d1 d2 : Int) (label1 label2 : String) (limit i : Int) :
    pureValue ⟨d1, d2, label1, label2, limit⟩ i
      = pureValue ⟨(d1.natAbs : Int), (d2.natAbs : Int), label1, label2, limit⟩ i := by
  unfold pureValue
  simp only [← Int.dvd_iff_tmod_eq_zero, Int.natAbs_dvd]

theorem digitChar_spec : ∀ k, k < 10 →
    (Nat.digitChar k).isDigit = true ∧ (Nat.digitChar k).toNat - 48 = k := by
  decide

theorem toDigitsCore_ne_nil (fuel n : Nat) (ds : List Char) :
    Nat.toDigitsCore 10 (fuel + 1) n ds ≠ [] := by
  induction fuel generalizing n ds with
  | zero =>
    unfold Nat.toDigitsCore
    simp only []
    split
    · simp
    · simp [Nat.toDigitsCore]
  | succ fuel ih =>
    unfold Nat.toDigitsCore
    simp only []
    split
    · simp
    · exact ih _ _

theorem parseDigits_toDigitsCore (fuel n : Nat) (ds : List Char) (hfuel : n < fuel)
    (hn : n < 2 ^ 64) :
    parseDigits (Nat.toDigitsCore 10 fuel n ds) 0 = parseDigits ds n := by
  induction fuel generalizing n ds with
  | zero => omega
  | succ fuel ih =>
    obtain ⟨hd, hv⟩ := digitChar_spec (n % 10) (Nat.mod_lt _ (by decide))
    unfold Nat.toDigitsCore
    simp only []
    split
    · rename_i h0
      have hlt : n % 10 = n := by omega
      rw [parseDigits, if_pos hd, Nat.zero_mul, Nat.zero_add, hv, hlt, if_pos hn]
    · rename_i h0
      have hval : n / 10 * 10 + n % 10 = n := by omega
      rw [ih (n / 10) _ (by omega) (by omega), parseDigits, if_pos hd, hv, hval, if_pos hn]

theorem parseDigits_toDigits (n : Nat) (hn : n < 2 ^ 64) :
    parseDigits (Nat.toDigits 10 n) 0 = .ok n := by
  unfold Nat.toDigits
  rw [parseDigits_toDigitsCore _ _ _ (by omega) hn]
  rfl

theorem toDigits_ne_nil (n : Nat) : Nat.toDigits 10 n ≠ [] :=
  toDigitsCore_ne_nil n n []

theorem isDigit_of_parseDigits (c : Char) (cs : List Char) (a m : Nat)
    (h : parseDigits (c :: cs) a = .ok m) : c.isDigit = true := by
  by_contra hc
  rw [parseDigits, if_neg hc] at h
  cases h

theorem Itoa_ne_empty (n : Int) : Itoa n ≠ "" := by
  unfold Itoa
  split
  · simp [String.ext_iff]
  · simpa [String.ext_iff] using toDigits_ne_nil n.toNat

theorem Atoi_Itoa (n : Int) (hn : isInt n) : Atoi (Itoa n) = .ok n := by
  obtain ⟨hlo, hhi⟩ := hn
  by_cases hneg : n < 0
  · have hp := parseDigits_toDigits n.natAbs (by omega)
    cases hdat : Nat.toDigits 10 n.natAbs with
    | nil => exact absurd hdat (toDigits_ne_nil _)
    | cons d ds =>
      rw [hdat] at hp
      have hle : n.natAbs ≤ 2 ^ 63 := by omega
      have hval : -(n.natAbs : Int) = n := by omega
      simp only [Atoi, Itoa, hneg, if_true, hdat, true_or, hp, hle, hval]
  · have hp := parseDigits_toDigits n.toNat (by omega)
    cases hdat : Nat.toDigits 10 n.toNat with
    | nil => exact absurd hdat (toDigits_ne_nil _)
    | cons c cs =>
      rw [hdat] at hp
      have hc := isDigit_of_parseDigits c cs 0 _ hp
      have hc1 : c ≠ '-' := by
        rintro rfl
        exact absurd hc (by decide)
      have hc2 : c ≠ '+' := by
        rintro rfl
        exact absurd hc (by decide)
      have hlt : n.toNat < 2 ^ 63 := by omega
      have hval : (n.toNat : Int) = n := by omega
      simp only [Atoi, Itoa, hneg, if_false, hdat, hc1, hc2, or_self, hp, hlt, if_true, hval]

theorem parseInt_Itoa (r : HTTPRequest) (key : String) (d n : Int) (hn : isInt n)
    (h : FormValue r key = Itoa n) : parseInt r key d = .ok n := by
  rw [parseInt_ok_iff]
  right
  rw [h]
  exact ⟨Itoa_ne_empty n, Atoi_Itoa n hn⟩

/-! ## Lemmas on `Request.URLEncode` -/

theorem FormValue_URLEncode (r : Request) :
    FormValue ⟨r.URLEncode⟩ "int1" = Itoa r.Int1 ∧
    FormValue ⟨r.URLEncode⟩ "int2" = Itoa r.Int2 ∧
    FormValue ⟨r.URLEncode⟩ "str1" = r.Str1 ∧
    FormValue ⟨r.URLEncode⟩ "str2" = r.Str2 ∧
    FormValue ⟨r.URLEncode⟩ "limit" = Itoa r.Limit :=
  ⟨rfl, rfl, rfl, rfl, rfl⟩

theorem ParseRequest_URLEncode (r : Request) (h1 : isInt r.Int1) (h2 : isInt r.Int2)
    (h3 : isInt r.Limit) (hlimit : 0 ≤ r.Limit) :
    ParseRequest ⟨r.URLEncode⟩
      = .ok { Int1 := r.Int1, Int2 := r.Int2,
              Str1 := if r.Str1 = "" then "fizz" else r.Str1,
              Str2 := if r.Str2 = "" then "buzz" else r.Str2,
              Limit := r.Limit } := by
  obtain ⟨f1, f2, f3, f4, f5⟩ := FormValue_URLEncode r
  rw [ParseRequest_ok_iff]
  refine ⟨parseInt_Itoa _ _ _ _ h1 f1, parseInt_Itoa _ _ _ _ h2 f2, ?_, ?_,
    parseInt_Itoa _ _ _ _ h3 f5, hlimit⟩
  · simp only [f3, length_eq_zero_iff]
  · simp only [f4, length_eq_zero_iff]

theorem ParseRequest_URLEncode_neg (r : Request) (h1 : isInt r.Int1) (h2 : isInt r.Int2)
    (h3 : isInt r.Limit) (hlimit : r.Limit < 0) :
    ParseRequest ⟨r.URLEncode⟩ = .error .invalidLimit := by
  obtain ⟨f1, f2, _, _, f5⟩ := FormValue_URLEncode r
  unfold ParseRequest
  rw [parseInt_Itoa _ _ _ _ h1 f1, parseInt_Itoa _ _ _ _ h2 f2, parseInt_Itoa _ _ _ _ h3 f5]
  simp [hlimit]

/-! ## The claims on the round trip and on the accepted requests -/

/-- C17: round trip between `Request.URLEncode` and `ParseRequest`. For a
`Request` (its integer fields being Go `int` values) with non-empty `Str1`,
non-empty `Str2` and `Limit ≥ 0`, parsing the parameters produced by
`URLEncode` succeeds and yields the request itself; with an empty label the
result carries the default label instead, and with a negative `Limit` the
parsing fails. -/
theorem urlEncode_roundtrip (r : Request) (h1 : isInt r.Int1) (h2 : isInt r.Int2)
    (h3 : isInt r.Limit) :
    (r.Str1 ≠ "" → r.Str2 ≠ "" → 0 ≤ r.Limit → ParseRequest ⟨r.URLEncode⟩ = .ok r) ∧
    (0 ≤ r.Limit →
      ParseRequest ⟨r.URLEncode⟩
        = .ok { Int1 := r.Int1, Int2 := r.Int2,
                Str1 := if r.Str1 = "" then "fizz" else r.Str1,
                Str2 := if r.Str2 = "" then "buzz" else r.Str2,
                Limit := r.Limit }) ∧
    (r.Limit < 0 → ParseRequest ⟨r.URLEncode⟩ = .error .invalidLimit) := by
  refine ⟨?_, ParseRequest_URLEncode r h1 h2 h3, ParseRequest_URLEncode_neg r h1 h2 h3⟩
  intro hs1 hs2 hlimit
  rw [ParseRequest_URLEncode r h1 h2 h3 hlimit, if_neg hs1, if_neg hs2]

/-- The fourth request of `TestService_Statistics`. -/
theorem urlEncode_roundtrip_witness :
    ParseRequest ⟨(⟨2, 6, "foo", "bar", 157⟩ : Request).URLEncode⟩
      = .ok ⟨2, 6, "foo", "bar", 157⟩ :=
  (urlEncode_roundtrip ⟨2, 6, "foo", "bar", 157⟩ (by decide) (by decide) (by decide)).1
    (by decide) (by decide) (by decide)

/-! ## Lemmas on what the endpoint records -/

theorem ParseRequest_post (r : HTTPRequest) (req : Request) (h : ParseRequest r = .ok req) :
    req.Str1 ≠ "" ∧ req.Str2 ≠ "" ∧ 0 ≤ req.Limit := by
  obtain ⟨_, _, h3, h4, _, h6⟩ := (ParseRequest_ok_iff r req).1 h
  simp only [length_eq_zero_iff] at h3 h4
  refine ⟨?_, ?_, h6⟩
  · rw [h3]
    split
    · decide
    · assumption
  · rw [h4]
    split
    · decide
    · assumption

theorem Aggregate_keys (l : List Request) :
    ∀ k ∈ (NewService.Aggregate l).counters.map Prod.fst, k ∈ l := by
  induction l using List.reverseRecOn with
  | nil => simp [Service.Aggregate, NewService]
  | append_singleton l x ih =>
    intro k hk
    rw [Aggregate_snoc, aggregateStep_counters, keys_mapSet] at hk
    split at hk
    · exact List.mem_append_left _ (ih k hk)
    · rcases List.mem_append.1 hk with h | h
      · exact List.mem_append_left _ (ih k h)
      · exact List.mem_append_right _ h

/-- The state after a sequence of calls of the endpoint is the state of
`Aggregate` after the requests that `ParseRequest` returned for them. -/
theorem serve_foldl (maxCap : Nat) (rs : List HTTPRequest) :
    ∃ reqs : List Request,
      rs.foldl (Service.serve maxCap) NewService = NewService.Aggregate reqs ∧
      ∀ q ∈ reqs, ∃ r ∈ rs, ParseRequest r = .ok q := by
  induction rs using List.reverseRecOn with
  | nil => exact ⟨[], rfl, by simp⟩
  | append_singleton rs r ih =>
    obtain ⟨reqs, hst, hall⟩ := ih
    rw [List.foldl_append, List.foldl_cons, List.foldl_nil, hst]
    cases hp : ParseRequest r with
    | error err =>
      rw [serve_of_error maxCap _ r err hp]
      exact ⟨reqs, rfl, fun q hq => by
        obtain ⟨r0, hr0, h0⟩ := hall q hq
        exact ⟨r0, List.mem_append_left _ hr0, h0⟩⟩
    | ok req =>
      cases hg : generate maxCap req with
      | error f =>
        rw [serve_of_fault maxCap _ r req f hp hg]
        exact ⟨reqs, rfl, fun q hq => by
          obtain ⟨r0, hr0, h0⟩ := hall q hq
          exact ⟨r0, List.mem_append_left _ hr0, h0⟩⟩
      | ok res =>
        rw [serve_of_ok maxCap _ r req res hp hg, ← Aggregate_snoc]
        refine ⟨reqs ++ [req], rfl, fun q hq => ?_⟩
        rcases List.mem_append.1 hq with h | h
        · obtain ⟨r0, hr0, h0⟩ := hall q h
          exact ⟨r0, List.mem_append_left _ hr0, h0⟩
        · rw [List.mem_singleton] at h
          subst h
          exact ⟨r, by simp, hp⟩

/-- C18: postcondition of `ParseRequest`. A request returned without error has
a non-empty `Str1`, a non-empty `Str2` and `Limit ≥ 0`; so the request sent to
the aggregator by the endpoint, every key of the table and, once something has
been recorded, the tracked request have non-empty labels, whatever calls the
endpoint has served and whatever the memory of the machine; the loop itself
accepts empty labels. -/
theorem parseRequest_labels (r : HTTPRequest) (req : Request)
    (h : ParseRequest r = .ok req) :
    req.Str1 ≠ "" ∧ req.Str2 ≠ "" ∧ 0 ≤ req.Limit ∧
    (∀ (maxCap : Nat) resp sent,
      Service.FizzBuzz maxCap r = .ok (resp, some sent) → sent = req) ∧
    (∀ (maxCap : Nat) (rs : List HTTPRequest),
      (∀ k ∈ (rs.foldl (Service.serve maxCap) NewService).counters.map Prod.fst,
        k.Str1 ≠ "" ∧ k.Str2 ≠ "" ∧ 0 ≤ k.Limit) ∧
      (rs.foldl (Service.serve maxCap) NewService = NewService ∨
        ((rs.foldl (Service.serve maxCap) NewService).max.Str1 ≠ "" ∧
          (rs.foldl (Service.serve maxCap) NewService).max.Str2 ≠ ""))) ∧
    fizzBuzzLoop ⟨1, 1, "", "", 1⟩ 1 [] = .ok [""] ∧
    (∀ maxCap : Nat, 1 ≤ maxCap → generate maxCap ⟨1, 1, "", "", 1⟩ = .ok [""]) := by
  obtain ⟨hs1, hs2, hl⟩ := ParseRequest_post r req h
  have hloop : fizzBuzzLoop ⟨1, 1, "", "", 1⟩ 1 [] = .ok [""] := by
    rw [fizzBuzzLoop_of_ne_zero _ (by decide) (by decide) (by decide) 1 1 [] (by decide)
      (by decide)]
    decide
  refine ⟨hs1, hs2, hl, ?_, ?_, hloop, ?_⟩
  · intro maxCap resp sent hresp
    cases hg : generate maxCap req with
    | error f =>
      rw [FizzBuzz_of_fault maxCap r req f h hg] at hresp
      cases hresp
    | ok res =>
      rw [FizzBuzz_of_ok maxCap r req res h hg] at hresp
      cases hresp
      rfl
  · intro maxCap rs
    obtain ⟨reqs, hst, hall⟩ := serve_foldl maxCap rs
    rw [hst]
    constructor
    · intro k hk
      obtain ⟨r0, _, h0⟩ := hall k (Aggregate_keys reqs k hk)
      exact ParseRequest_post r0 k h0
    · by_cases hne : reqs = []
      · left
        rw [hne]
        rfl
      · right
        obtain ⟨k, q, hk, hmax, _, _⟩ := Aggregate_earliest reqs hne
        obtain ⟨r0, _, h0⟩ := hall q (List.getElem?_mem hk)
        rw [hmax]
        exact ⟨(ParseRequest_post r0 q h0).1, (ParseRequest_post r0 q h0).2.1⟩
  · intro maxCap hcap
    unfold generate
    rw [makeSlice_ok maxCap _ (by decide) (by decide)
      (by show (1 : Int) ≤ (maxCap : Int); exact_mod_cast hcap)]
    exact hloop

/-- A query with an empty `str1`: the label of the request is the default. -/
theorem parseRequest_labels_witness :
    ("fizz" ≠ "" ∧ "bar" ≠ "" ∧ (0 : Int) ≤ 7) :=
  have h := parseRequest_labels ⟨[("str1", [""]), ("str2", ["bar"]), ("limit", ["7"])]⟩
    ⟨3, 5, "fizz", "bar", 7⟩ (by decide)
  ⟨h.1, h.2.1, h.2.2.1⟩

/-- C19: negative divisors are accepted by `ParseRequest` and act as their
absolute value. For non-zero `d1`, `d2` of either sign, all labels and
`limit ≥ 0`, the generation for `(d1, d2)` and the generation for
`(|d1|, |d2|)` have the same outcome, which is the same sequence whenever
`make` returns (`limit ≤ 2^44` and `limit ≤ maxCap`), since Go's `i % d` is 0
exactly when `|d|` divides `i`; and the query written by `URLEncode` for any
divisors of type `int` is accepted as it is. -/
theorem generate_natAbs (maxCap : Nat) (d1 d2 : Int) (label1 label2 : String) (limit : Int)
    (hd1 : d1 ≠ 0) (hd2 : d2 ≠ 0) (hlimit : 0 ≤ limit) :
    generate maxCap ⟨d1, d2, label1, label2, limit⟩
      = generate maxCap ⟨(d1.natAbs : Int), (d2.natAbs : Int), label1, label2, limit⟩ ∧
    (limit ≤ 2 ^ 44 → limit ≤ (maxCap : Int) →
      ∃ res, generate maxCap ⟨d1, d2, label1, label2, limit⟩ = .ok res ∧
        generate maxCap ⟨(d1.natAbs : Int), (d2.natAbs : Int), label1, label2, limit⟩
          = .ok res) ∧
    (∀ i : Int, 1 ≤ i →
      (goRem i d1 = .ok 0 ↔ (d1.natAbs : Int) ∣ i) ∧
      (goRem i d2 = .ok 0 ↔ (d2.natAbs : Int) ∣ i)) ∧
    (isInt d1 → isInt d2 → isInt limit →
      ParseRequest ⟨(⟨d1, d2, "fizz", "buzz", limit⟩ : Request).URLEncode⟩
        = .ok ⟨d1, d2, "fizz", "buzz", limit⟩) ∧
    ParseRequest ⟨[("int1", ["-3"]), ("int2", ["-5"])]⟩
      = .ok ⟨-3, -5, "fizz", "buzz", 100⟩ := by
  have hn1 : ((d1.natAbs : Int)) ≠ 0 := by omega
  have hn2 : ((d2.natAbs : Int)) ≠ 0 := by omega
  have hok : limit ≤ 2 ^ 44 → limit ≤ (maxCap : Int) →
      generate maxCap ⟨(d1.natAbs : Int), (d2.natAbs : Int), label1, label2, limit⟩
        = generate maxCap ⟨d1, d2, label1, label2, limit⟩ := by
    intro hrt hmem
    rw [generate_of_ne_zero maxCap _ hn1 hn2 hlimit hrt hmem,
      generate_of_ne_zero maxCap _ hd1 hd2 hlimit hrt hmem]
    congr 1
    apply List.map_congr_left
    intro k _
    exact (pureValue_natAbs d1 d2 label1 label2 limit _).symm
  refine ⟨?_, fun hrt hmem => ⟨_, generate_of_ne_zero maxCap _ hd1 hd2 hlimit hrt hmem, ?_⟩,
    ?_, ?_, by decide⟩
  · by_cases hbig : 2 ^ 44 < limit
    · rw [generate_of_large maxCap _ hbig, generate_of_large maxCap _ hbig]
    · by_cases hmem : (maxCap : Int) < limit
      · rw [generate_of_noMemory maxCap _ hlimit (by simp only []; omega) hmem,
          generate_of_noMemory maxCap _ hlimit (by simp only []; omega) hmem]
      · exact (hok (by omega) (by omega)).symm
  · rw [hok hrt hmem]
    exact generate_of_ne_zero maxCap _ hd1 hd2 hlimit hrt hmem
  · intro i _
    rw [goRem_of_ne_zero _ _ hd1, goRem_of_ne_zero _ _ hd2]
    simp only [Except.ok.injEq, ← Int.dvd_iff_tmod_eq_zero, Int.natAbs_dvd, and_self]
  · intro h1 h2 h3
    have h := ParseRequest_URLEncode ⟨d1, d2, "fizz", "buzz", limit⟩ h1 h2 h3 hlimit
    simpa using h

/-- The divisors -3 and -5 with the default labels. -/
theorem generate_natAbs_witness :
    generate 15 ⟨-3, -5, "fizz", "buzz", 15⟩
      = generate 15 ⟨((-3 : Int).natAbs : Int), ((-5 : Int).natAbs : Int), "fizz", "buzz", 15⟩ :=
  (generate_natAbs 15 (-3) (-5) "fizz" "buzz" 15 (by decide) (by decide) (by decide)).1

/-! ## Lemmas on the concurrent system -/

theorem countP_set_of (p : StatPc → Bool) (l : List StatPc) (i : Nat) (t b : StatPc)
    (h : l[i]? = some t) :
    (l.set i b).countP p + (if p t then 1 else 0) = l.countP p + (if p b then 1 else 0) := by
  revert i
  induction l with
  | nil =>
    intro i h
    simp at h
  | cons x l ih =>
    intro i h
    match i, h with
    | 0, h =>
      have hx : x = t := by simpa using h
      rw [hx, List.set_cons_zero, List.countP_cons, List.countP_cons]
      omega
    | k + 1, h =>
      have hk : l[k]? = some t := by simpa using h
      have hrec := ih k hk
      rw [List.set_cons_succ, List.countP_cons, List.countP_cons]
      omega

theorem trackerOfPrefix_append (l : List Request) (x : Request) (m : Request) (c : Int)
    (h : trackerOfPrefix l m c) : trackerOfPrefix (l ++ [x]) m c := by
  obtain ⟨n, hn, hm, hc⟩ := h
  refine ⟨n, by simp; omega, ?_, ?_⟩
  · rw [List.take_append_of_le_length hn]
    exact hm
  · rw [List.take_append_of_le_length hn]
    exact hc

theorem trackerOfPrefix_full (l : List Request) :
    trackerOfPrefix l (NewService.Aggregate l).max (NewService.Aggregate l).maxCounter :=
  ⟨l.length, le_refl _, by rw [List.take_length], by rw [List.take_length]⟩

theorem midStep_eq_aggregateStep_of_gt (p : Service) (req : Request)
    (h : mapGet (midStep p req p.max p.maxCounter).counters req > p.maxCounter) :
    midStep p req req (mapGet (midStep p req req p.maxCounter).counters req)
      = p.aggregateStep req := by
  simp only [midStep, mapGet_mapSet_self] at h ⊢
  simp only [Service.aggregateStep, mapGet_mapSet_self, h, if_true]

theorem midStep_eq_aggregateStep_of_not_gt (p : Service) (req : Request)
    (h : ¬ mapGet (midStep p req p.max p.maxCounter).counters req > p.maxCounter) :
    midStep p req p.max p.maxCounter = p.aggregateStep req := by
  simp only [midStep, mapGet_mapSet_self] at h ⊢
  simp only [Service.aggregateStep, mapGet_mapSet_self, h, if_false]

/-- Outside the statements run with the lock held, the tracker of the service
is the tracker of `Service.Aggregate` on the requests received, the current
one left out when its iteration is not finished. -/
theorem tracker_of_not_critical (σ : System) (h : σ.aggInv) (hc : σ.agg.critical = false) :
    trackerOfPrefix σ.consumed σ.svc.max σ.svc.maxCounter := by
  unfold System.aggInv at h
  cases hagg : σ.agg with
  | receive =>
    rw [hagg] at h
    simp only [] at h
    rw [h]
    exact trackerOfPrefix_full _
  | increment req =>
    rw [hagg] at h
    obtain ⟨pre, hpre, hsvc⟩ := h
    rw [hpre, hsvc]
    exact trackerOfPrefix_append _ _ _ _ (trackerOfPrefix_full pre)
  | compare req =>
    rw [hagg] at h
    obtain ⟨pre, hpre, hsvc⟩ := h
    rw [hpre, hsvc]
    exact trackerOfPrefix_append _ _ _ _ (trackerOfPrefix_full pre)
  | lock req =>
    rw [hagg] at h
    obtain ⟨pre, hpre, hsvc, _⟩ := h
    rw [hpre, hsvc]
    exact trackerOfPrefix_append _ _ _ _ (trackerOfPrefix_full pre)
  | setMax req => rw [hagg] at hc; cases hc
  | setMaxCounter req => rw [hagg] at hc; cases hc
  | unlock => rw [hagg] at hc; cases hc

theorem Inv_init : System.init.Inv where
  agg := rfl
  lockW := rfl
  excl := fun h => by cases h
  cnt := rfl
  readM := fun m h => by simp [System.init] at h
  resp := fun t h => by simp [System.init] at h

theorem Inv_send (σ σ1 : System) (req : Request) (h : σ.step (.send req) = some σ1)
    (hi : σ.Inv) : σ1.Inv := by
  unfold System.step at h
  cases hagg : σ.agg <;> simp only [hagg] at h <;> try cases h
  have hagg0 := hi.agg
  unfold System.aggInv at hagg0
  rw [hagg] at hagg0
  have hw := hi.lockW
  rw [hagg] at hw
  exact {
    agg := ⟨σ.consumed, rfl, hagg0⟩
    lockW := hw
    excl := hi.excl
    cnt := hi.cnt
    readM := hi.readM
    resp := fun t ht m c hr => trackerOfPrefix_append _ _ _ _ (hi.resp t ht m c hr) }

theorem Inv_call (σ σ1 : System) (h : σ.step .call = some σ1) (hi : σ.Inv) : σ1.Inv := by
  unfold System.step at h
  cases h
  exact {
    agg := hi.agg
    lockW := hi.lockW
    excl := hi.excl
    cnt := by
      have := hi.cnt
      simp only [List.countP_append, List.countP_cons, List.countP_nil, StatPc.holding]
      simpa using this
    readM := fun m hm => by
      rcases List.mem_append.1 hm with h1 | h1
      · exact hi.readM m h1
      · simp at h1
    resp := fun t ht m c hr => by
      rcases List.mem_append.1 ht with h1 | h1
      · exact hi.resp t h1 m c hr
      · rw [List.mem_singleton] at h1
        subst h1
        cases hr }

theorem no_holder_of_writer (σ : System) (hi : σ.Inv) (hw : σ.writer = true) :
    ∀ t ∈ σ.stats, t.holding = false := by
  have h0 := hi.excl hw
  rw [hi.cnt] at h0
  intro t ht
  have := (List.countP_eq_zero.1 h0) t ht
  simpa using this

theorem Inv_agg (σ σ1 : System) (h : σ.step .agg = some σ1) (hi : σ.Inv) : σ1.Inv := by
  have hagg0 := hi.agg
  have hw := hi.lockW
  unfold System.step System.stepAgg at h
  unfold System.aggInv at hagg0
  cases hagg : σ.agg with
  | receive => simp [hagg] at h
  | increment req =>
    rw [hagg] at hagg0 hw
    simp only [hagg] at h
    cases h
    obtain ⟨pre, hpre, hsvc⟩ := hagg0
    exact {
      agg := ⟨pre, hpre, by simp [hsvc, midStep]⟩
      lockW := hw
      excl := hi.excl
      cnt := hi.cnt
      readM := hi.readM
      resp := hi.resp }
  | compare req =>
    rw [hagg] at hagg0 hw
    simp only [hagg] at h
    obtain ⟨pre, hpre, hsvc⟩ := hagg0
    split at h
    · rename_i hgt
      cases h
      exact {
        agg := ⟨pre, hpre, hsvc, by
          have : σ.svc.maxCounter = (NewService.Aggregate pre).maxCounter := by
            rw [hsvc]; rfl
          rw [← this]
          exact hgt⟩
        lockW := hw
        excl := hi.excl
        cnt := hi.cnt
        readM := hi.readM
        resp := hi.resp }
    · rename_i hgt
      cases h
      exact {
        agg := by
          show σ.svc = NewService.Aggregate σ.consumed
          rw [hpre, Aggregate_snoc, hsvc]
          apply midStep_eq_aggregateStep_of_not_gt
          rw [hsvc] at hgt
          exact hgt
        lockW := hw
        excl := hi.excl
        cnt := hi.cnt
        readM := hi.readM
        resp := hi.resp }
  | lock req =>
    rw [hagg] at hagg0 hw
    simp only [hagg] at h
    split at h
    · rename_i hfree
      cases h
      exact {
        agg := hagg0
        lockW := rfl
        excl := fun _ => hfree.2
        cnt := hi.cnt
        readM := hi.readM
        resp := hi.resp }
    · cases h
  | setMax req =>
    rw [hagg] at hagg0 hw
    simp only [hagg] at h
    cases h
    obtain ⟨pre, hpre, hsvc, hgt⟩ := hagg0
    have hnone := no_holder_of_writer σ hi hw
    exact {
      agg := ⟨pre, hpre, by simp [hsvc, midStep], by
        show mapGet σ.svc.counters req > _
        exact hgt⟩
      lockW := hw
      excl := hi.excl
      cnt := hi.cnt
      readM := fun m hm => by
        have := hnone _ hm
        simp [StatPc.holding] at this
      resp := hi.resp }
  | setMaxCounter req =>
    rw [hagg] at hagg0 hw
    simp only [hagg] at h
    cases h
    obtain ⟨pre, hpre, hsvc, hgt⟩ := hagg0
    exact {
      agg := by
        show ({ σ.svc with maxCounter := mapGet σ.svc.counters req } : Service)
          = NewService.Aggregate σ.consumed
        rw [hpre, Aggregate_snoc, ← midStep_eq_aggregateStep_of_gt]
        · rw [hsvc]
          rfl
        · rw [hsvc] at hgt
          exact hgt
      lockW := hw
      excl := hi.excl
      cnt := hi.cnt
      readM := hi.readM
      resp := hi.resp }
  | unlock =>
    rw [hagg] at hagg0 hw
    simp only [hagg] at h
    cases h
    exact {
      agg := hagg0
      lockW := rfl
      excl := fun hc => by cases hc
      cnt := hi.cnt
      readM := hi.readM
      resp := hi.resp }

theorem Inv_stat (σ σ1 : System) (i : Nat) (h : σ.step (.stat i) = some σ1) (hi : σ.Inv) :
    σ1.Inv := by
  unfold System.step System.stepStat at h
  cases hget : σ.stats[i]? with
  | none => simp [hget] at h
  | some t =>
    have hmem : t ∈ σ.stats := List.getElem?_mem hget
    have hcnt := countP_set_of StatPc.holding σ.stats i t
    cases t with
    | rlock =>
      simp only [hget] at h
      split at h
      · rename_i hfree
        cases h
        exact {
          agg := hi.agg
          lockW := hi.lockW
          excl := fun hc => by
            rw [hfree] at hc
            cases hc
          cnt := by
            have := hcnt .readMax hget
            have h0 := hi.cnt
            simp only [StatPc.holding] at this
            show σ.readers + 1 = (σ.stats.set i .readMax).countP StatPc.holding
            simp at this
            omega
          readM := fun m hm => by
            rcases List.mem_or_eq_of_mem_set hm with h1 | h1
            · exact hi.readM m h1
            · cases h1
          resp := fun t ht m c hr => by
            rcases List.mem_or_eq_of_mem_set ht with h1 | h1
            · exact hi.resp t h1 m c hr
            · subst h1
              cases hr }
      · cases h
    | readMax =>
      simp only [hget] at h
      cases h
      exact {
        agg := hi.agg
        lockW := hi.lockW
        excl := hi.excl
        cnt := by
          have := hcnt (.readMaxCounter σ.svc.max) hget
          have h0 := hi.cnt
          simp only [StatPc.holding] at this
          show σ.readers = (σ.stats.set i (.readMaxCounter σ.svc.max)).countP StatPc.holding
          simp at this
          omega
        readM := fun m hm => by
          rcases List.mem_or_eq_of_mem_set hm with h1 | h1
          · exact hi.readM m h1
          · cases h1
            rfl
        resp := fun t ht m c hr => by
          rcases List.mem_or_eq_of_mem_set ht with h1 | h1
          · exact hi.resp t h1 m c hr
          · subst h1
            cases hr }
    | readMaxCounter m0 =>
      simp only [hget] at h
      cases h
      have hm0 : m0 = σ.svc.max := hi.readM m0 hmem
      have hnw : σ.writer = false := by
        cases hw : σ.writer with
        | false => rfl
        | true =>
          have := no_holder_of_writer σ hi hw _ hmem
          simp [StatPc.holding] at this
      have hnc : σ.agg.critical = false := by
        rw [← hi.lockW]
        exact hnw
      have htr := tracker_of_not_critical σ hi.agg hnc
      exact {
        agg := hi.agg
        lockW := hi.lockW
        excl := hi.excl
        cnt := by
          have := hcnt (.runlock m0 σ.svc.maxCounter) hget
          have h0 := hi.cnt
          simp only [StatPc.holding] at this
          show σ.readers = (σ.stats.set i (.runlock m0 σ.svc.maxCounter)).countP StatPc.holding
          simp at this
          omega
        readM := fun m hm => by
          rcases List.mem_or_eq_of_mem_set hm with h1 | h1
          · exact hi.readM m h1
          · cases h1
        resp := fun t ht m c hr => by
          rcases List.mem_or_eq_of_mem_set ht with h1 | h1
          · exact hi.resp t h1 m c hr
          · subst h1
            simp only [StatPc.response, Option.some.injEq, Prod.mk.injEq] at hr
            obtain ⟨rfl, rfl⟩ := hr
            rw [hm0]
            exact htr }
    | runlock m0 c0 =>
      simp only [hget] at h
      cases h
      have hpos : 0 < σ.stats.countP StatPc.holding :=
        List.countP_pos_iff.2 ⟨_, hmem, rfl⟩
      have hnw : σ.writer = false := by
        cases hw : σ.writer with
        | false => rfl
        | true =>
          have := no_holder_of_writer σ hi hw _ hmem
          simp [StatPc.holding] at this
      exact {
        agg := hi.agg
        lockW := hi.lockW
        excl := fun hc => by
          rw [hnw] at hc
          cases hc
        cnt := by
          have := hcnt (.done m0 c0) hget
          have h0 := hi.cnt
          simp only [StatPc.holding] at this
          show σ.readers - 1 = (σ.stats.set i (.done m0 c0)).countP StatPc.holding
          simp at this
          omega
        readM := fun m hm => by
          rcases List.mem_or_eq_of_mem_set hm with h1 | h1
          · exact hi.readM m h1
          · cases h1
        resp := fun t ht m c hr => by
          rcases List.mem_or_eq_of_mem_set ht with h1 | h1
          · exact hi.resp t h1 m c hr
          · subst h1
            exact hi.resp _ hmem m c hr }
    | done m0 c0 => simp [hget] at h

theorem Inv_step (σ σ1 : System) (a : Action) (h : σ.step a = some σ1) (hi : σ.Inv) :
    σ1.Inv := by
  cases a with
  | send req => exact Inv_send σ σ1 req h hi
  | agg => exact Inv_agg σ σ1 h hi
  | call => exact Inv_call σ σ1 h hi
  | stat i => exact Inv_stat σ σ1 i h hi

theorem Inv_run (acts : List Action) (σ σ1 : System) (h : σ.run acts = some σ1)
    (hi : σ.Inv) : σ1.Inv := by
  induction acts generalizing σ with
  | nil =>
    simp only [System.run, Option.some.injEq] at h
    rw [← h]
    exact hi
  | cons a acts ih =>
    unfold System.run at h
    cases hs : σ.step a with
    | none => simp [hs] at h
    | some σ2 =>
      simp only [hs] at h
      exact ih σ2 h (Inv_step σ σ2 a hs hi)

/-! ## The claim on the interleavings -/

/-- C15: under every interleaving of the aggregation routine with calls of
`Statistics`, the pair `(request, total)` carried by a response is the value of
`(max, maxCounter)` left by `Service.Aggregate` after some of the first records
received so far, never the request of one update with the count of another.
The lock is never held by a writer and a reader at once, and between two
iterations the shared fields are those of `Service.Aggregate` on the records
received. -/
theorem statistics_atomic (acts : List Action) (σ : System)
    (h : System.init.run acts = some σ) :
    (∀ (i : Nat) (m : Request) (c : Int),
      (σ.stats[i]? = some (StatPc.runlock m c) ∨ σ.stats[i]? = some (StatPc.done m c)) →
      ∃ n, n ≤ σ.consumed.length ∧
        m = (NewService.Aggregate (σ.consumed.take n)).max ∧
        c = (NewService.Aggregate (σ.consumed.take n)).maxCounter) ∧
    (σ.writer = true → σ.readers = 0) ∧
    (σ.agg = .receive → σ.svc = NewService.Aggregate σ.consumed) := by
  have hi := Inv_run acts System.init σ h Inv_init
  refine ⟨?_, hi.excl, ?_⟩
  · intro i m c hic
    rcases hic with h1 | h1
    · exact hi.resp _ (List.getElem?_mem h1) m c rfl
    · exact hi.resp _ (List.getElem?_mem h1) m c rfl
  · intro hrecv
    have := hi.agg
    unfold System.aggInv at this
    rw [hrecv] at this
    exact this

/-- A call of `Statistics` that reads while the aggregation routine waits for
the lock answers the zero request with 0; a call after the update answers the
recorded request with 1. -/
theorem statistics_atomic_witness :
    (∃ n, n ≤ [(⟨3, 5, "fizz", "buzz", 100⟩ : Request)].length ∧
      (⟨0, 0, "", "", 0⟩ : Request)
        = (NewService.Aggregate ([(⟨3, 5, "fizz", "buzz", 100⟩ : Request)].take n)).max ∧
      (0 : Int)
        = (NewService.Aggregate ([(⟨3, 5, "fizz", "buzz", 100⟩ : Request)].take n)).maxCounter) ∧
    (∃ n, n ≤ [(⟨3, 5, "fizz", "buzz", 100⟩ : Request)].length ∧
      (⟨3, 5, "fizz", "buzz", 100⟩ : Request)
        = (NewService.Aggregate ([(⟨3, 5, "fizz", "buzz", 100⟩ : Request)].take n)).max ∧
      (1 : Int)
        = (NewService.Aggregate ([(⟨3, 5, "fizz", "buzz", 100⟩ : Request)].take n)).maxCounter) :=
  have h := statistics_atomic
    [.call, .send ⟨3, 5, "fizz", "buzz", 100⟩, .agg, .agg, .stat 0, .stat 0, .stat 0, .stat 0,
      .agg, .agg, .agg, .agg, .call, .stat 1, .stat 1, .stat 1]
    { svc := { counters := [(⟨3, 5, "fizz", "buzz", 100⟩, 1)],
               max := ⟨3, 5, "fizz", "buzz", 100⟩, maxCounter := 1 },
      writer := false, readers := 1, agg := .receive,
      consumed := [⟨3, 5, "fizz", "buzz", 100⟩],
      stats := [.done ⟨0, 0, "", "", 0⟩ 0, .runlock ⟨3, 5, "fizz", "buzz", 100⟩ 1] }
    (by decide)
  ⟨h.1 0 ⟨0, 0, "", "", 0⟩ 0 (Or.inr rfl), h.1 1 ⟨3, 5, "fizz", "buzz", 100⟩ 1 (Or.inl rfl)⟩

end Fizzbuzz
